import Mathlib

/-! go.devtools: the `gologcop` / `logcop` command front end, the mojo profile and
the test commands.

A shallow embedding of

* `src/gologcop/cmd.go` and `src/logcop/cmd.go` (`splitCommaSeparatedValues`,
  `runCheck`, `runInject`, `runRemove`),
* `src/jiri-v23-profile/mojo/mojo.go` (`Manager.initForTarget`, the URL builders,
  `Manager.installMojoShellAndServices`),
* `src/lib/testutil/playground.go` (`vanadiumPlaygroundSubtest`) and
  `src/lib/testutil/vdl.go` (`veyronVDL`),
* `src/v23/test.go` (`runTestProject`, `runTestRun`, `printSummary`),
* `src/jiri-test/internal/test/prod.go` (`generateXUnitTestSuite`,
  `getServiceOpts`, `vanadiumProdServicesTest` and the functions it calls),

together with the properties the specification states about them.

Go strings are modelled as sequences of Unicode code points (`List Char`), that
is, as well-formed UTF-8 text.  The only separator the code searches for is the
ASCII comma, which never occurs inside a multi-byte UTF-8 sequence, so splitting
on the byte `,` and splitting on the code point `,` agree on such strings.
-/

set_option linter.unusedVariables false

namespace GoDevtools

/-- A Go `string`, as its sequence of code points. -/
abbrev GoString := List Char

/-! ## The Go standard library functions used by `cmd.go` -/

/-- Go `unicode.IsSpace`: in Latin-1 the characters `\t \n \v \f \r`, space,
U+0085 and U+00A0; above Latin-1 the code points of the `White_Space`
property. -/
def isSpace (r : Char) : Bool :=
  let n := r.toNat
  if n ≤ 0xFF then
    n == 0x09 || n == 0x0A || n == 0x0B || n == 0x0C || n == 0x0D || n == 0x20
      || n == 0x85 || n == 0xA0
  else
    n == 0x1680 || (0x2000 ≤ n && n ≤ 0x200A) || n == 0x2028 || n == 0x2029
      || n == 0x202F || n == 0x205F || n == 0x3000

/-- Go `strings.TrimLeftFunc(s, unicode.IsSpace)`: drop the leading code points
that are white space. -/
def TrimLeftSpace (s : GoString) : GoString :=
  s.dropWhile isSpace

/-- Go `strings.TrimRightFunc(s, unicode.IsSpace)`: drop the trailing code
points that are white space. -/
def TrimRightSpace (s : GoString) : GoString :=
  (s.reverse.dropWhile isSpace).reverse

/-- Go `strings.TrimSpace(s)`, which is
`TrimRightFunc(TrimLeftFunc(s, unicode.IsSpace), unicode.IsSpace)`. -/
def TrimSpace (s : GoString) : GoString :=
  TrimRightSpace (TrimLeftSpace s)

/-- Go `strings.Split(s, sep)` for a one-character separator: the substrings
between consecutive occurrences of `sep`.  The result always has one more
element than `s` has separators; `Split "" sep` is `[""]`.  The first component
is the text before the first separator, the rest is the split of what follows
it, which is how `genSplit` cuts `s` at `Index(s, sep)` repeatedly. -/
def Split (s : GoString) (sep : Char) : List GoString :=
  match s with
  | [] => [[]]
  | c :: cs =>
    if c = sep then [] :: Split cs sep
    else
      match Split cs sep with
      | [] => [[c]]
      | first :: rest => (c :: first) :: rest

/-! ## `splitCommaSeparatedValues` -/

/-- One iteration of the loop of `splitCommaSeparatedValues`:
`trimmed := strings.TrimSpace(v); if len(trimmed) > 0 { result = append(result, trimmed) }`. -/
def splitStep (result : List GoString) (v : GoString) : List GoString :=
  let trimmed := TrimSpace v
  if trimmed.length > 0 then result ++ [trimmed] else result

/-- The function `splitCommaSeparatedValues` of `gologcop/cmd.go`: start from the
empty slice and run the loop body over `strings.Split(s, ",")`. -/
def splitCommaSeparatedValues (s : GoString) : List GoString :=
  (Split s ',').foldl splitStep []

/-- The description of `splitCommaSeparatedValues` in words: split the string at
every comma, trim the white space around each component, drop the components
that are empty after trimming, keep the order. -/
def splitTrimDropEmpty (s : GoString) : List GoString :=
  ((List.splitOn ',' s).map fun v => List.rdropWhile isSpace (v.dropWhile isSpace)).filter
    fun v => !v.isEmpty

/-! ## The `check`, `inject` and `remove` commands of `cmd.go`

`runInjector`, `runRemover`, `tool.NewContextFromEnv` and `env.UsageErrorf` are
not defined in `cmd.go`; the commands are modelled over arbitrary
implementations of them.  A command run threads the state `σ` of the outside
world (the source tree on disk) and records every invocation of the injector
and of the remover, so that "the injector is not invoked" is a statement about
the recorded list. -/

/-- The arguments of one call `runInjector(ctx, interfaceList, implementationList, checkOnly)`. -/
structure InjectorCall (Ctx : Type) where
  ctx : Ctx
  interfaceList : List GoString
  implementationList : List GoString
  checkOnly : Bool
  deriving DecidableEq

/-- The arguments of one call `runRemover(ctx, packages)`. -/
structure RemoverCall (Ctx : Type) where
  ctx : Ctx
  packages : List GoString
  deriving DecidableEq

/-- The `error` a command returns: the usage error made by
`env.UsageErrorf(msg)`, or the error `e` that the injector or remover returned. -/
inductive CmdError (ε : Type) where
  | usage (msg : String)
  | failure (e : ε)
  deriving DecidableEq

/-- The collaborators of the commands that live outside `cmd.go`. -/
structure Tools (Env Ctx ε σ : Type) where
  NewContextFromEnv : Env → Ctx
  runInjector : Ctx → List GoString → List GoString → Bool → σ → Option ε × σ
  runRemover : Ctx → List GoString → σ → Option ε × σ

/-- What a command run leaves behind: the returned `error` (`none` is Go `nil`),
the state of the world, and the injector and remover invocations it made, in
order. -/
structure CmdResult (Ctx ε σ : Type) where
  err : Option (CmdError ε)
  world : σ
  injectorCalls : List (InjectorCall Ctx)
  removerCalls : List (RemoverCall Ctx)

/-- The statement `return runInjector(ctx, interfaceList, implementationList, checkOnly)`,
with the call recorded. -/
def returnRunInjector {Env Ctx ε σ : Type} (t : Tools Env Ctx ε σ) (ctx : Ctx)
    (interfaceList implementationList : List GoString) (checkOnly : Bool) (w : σ) :
    CmdResult Ctx ε σ :=
  let r := t.runInjector ctx interfaceList implementationList checkOnly w
  { err := r.1.map CmdError.failure
    world := r.2
    injectorCalls := [⟨ctx, interfaceList, implementationList, checkOnly⟩]
    removerCalls := [] }

/-- The statement `return env.UsageErrorf(msg)`: nothing else runs. -/
def returnUsageErrorf {Ctx ε σ : Type} (msg : String) (w : σ) : CmdResult Ctx ε σ :=
  { err := some (CmdError.usage msg), world := w, injectorCalls := [], removerCalls := [] }

/-- The function `runCheck` of `gologcop/cmd.go`; `interfacesFlag` is the value of
the package-level variable set by `--interface`. -/
def runCheck {Env Ctx ε σ : Type} (t : Tools Env Ctx ε σ) (interfacesFlag : GoString)
    (env : Env) (args : List GoString) (w : σ) : CmdResult Ctx ε σ :=
  let interfacePackageList := splitCommaSeparatedValues interfacesFlag
  let implementationPackageList := args
  if interfacePackageList.length = 0 then
    returnUsageErrorf "no interface packages listed" w
  else if implementationPackageList.length = 0 then
    returnUsageErrorf "no implementation package listed" w
  else
    let ctx := t.NewContextFromEnv env
    returnRunInjector t ctx interfacePackageList implementationPackageList true w

/-- The function `runInject` of `gologcop/cmd.go`. -/
def runInject {Env Ctx ε σ : Type} (t : Tools Env Ctx ε σ) (interfacesFlag : GoString)
    (env : Env) (args : List GoString) (w : σ) : CmdResult Ctx ε σ :=
  let ctx := t.NewContextFromEnv env
  returnRunInjector t ctx (splitCommaSeparatedValues interfacesFlag) args false w

/-- The function `runRemove` of `gologcop/cmd.go`. -/
def runRemove {Env Ctx ε σ : Type} (t : Tools Env Ctx ε σ) (env : Env)
    (args : List GoString) (w : σ) : CmdResult Ctx ε σ :=
  let ctx := t.NewContextFromEnv env
  let r := t.runRemover ctx args w
  { err := r.1.map CmdError.failure
    world := r.2
    injectorCalls := []
    removerCalls := [⟨ctx, args⟩] }

/-- A concrete set of collaborators used to exercise the commands: the world is
a counter of injector and remover runs, the injector fails with error `7`
exactly in check-only mode. -/
def sampleTools : Tools Unit Unit Nat Nat where
  NewContextFromEnv := fun _ => ()
  runInjector := fun _ _ _ checkOnly w => (if checkOnly then some 7 else none, w + 1)
  runRemover := fun _ _ w => (none, w + 1)

/-! ## The injector

`runInjector` is called by `cmd.go` but defined in a file of the repository that
is not part of the sources at hand.  Its effect on a source tree is modelled
from sections 3, 4.4, 4.5 and 4.6 of the specification.
-/

/-- Modelled from the spec: the flags of a run that the analyzer and the mutator
read (`runInjector` itself is missing).  `importPath` is
the configured import path of the logging package (`--import`), `call` the name
of the logging call (`--call`), `useContext` whether a leading context-typed
parameter is forwarded to the call. -/
structure LogConfig where
  importPath : GoString
  call : GoString
  useContext : Bool
  deriving DecidableEq

/-- Modelled from the spec: a statement of a method body, as far as the analyzer
of section 4.4 (missing from the sources) tells statements apart.
`deferCall path name args applied` is `defer <alias>.<name>(<args>)` followed by
the second argument list `(<applied>)` when `applied` is `some`, where `<alias>`
resolves through the imports of the file to the import path `path`.  Any other
statement is `other` with its text. -/
inductive Stmt where
  | deferCall (path : GoString) (name : GoString) (args : List GoString)
      (applied : Option (List GoString))
  | other (text : GoString)
  deriving DecidableEq

/-- Modelled from the spec: a method declaration of an implementation package
(the ImplType entry of section 3; the loader is missing).  `matched` is the
outcome of the ImplementationMatcher for this method under the package lists of
the run, `ctxParam` the name of its context-typed first parameter when it has
one, `body` its statements in order. -/
structure Method where
  typeName : GoString
  name : GoString
  matched : Bool
  ctxParam : Option GoString
  body : List Stmt
  deriving DecidableEq

/-- Modelled from the spec: a source file with its method declarations. -/
structure SourceFile where
  path : GoString
  methods : List Method
  deriving DecidableEq

/-- Modelled from the spec: the source tree `S` a run works on. -/
abbrev SourceTree := List SourceFile

/-- Modelled from the spec: the Verdict of section 3. -/
inductive Verdict where
  | Instrumented
  | Missing
  | Malformed
  deriving DecidableEq

/-- Modelled from the spec: the arguments the recognized call has to pass first
(section 4.4: "if a context-style first parameter is configured and present on
the method signature, the recognized call must additionally pass that parameter
as its leading argument"). -/
def contextArgs (cfg : LogConfig) (m : Method) : List GoString :=
  if cfg.useContext then
    match m.ctxParam with
    | some c => [c]
    | none => []
  else []

/-- Modelled from the spec: the call shape of section 4.4.  A statement is the
recognized call when it is a deferred `<alias>.<CallName>()()` or the formatted
variant `<alias>.<CallName>f(<args>)(<results>)`, with `<alias>` resolving to the
configured import path and the context parameter passed first when required. -/
def isRecognizedCall (cfg : LogConfig) (m : Method) : Stmt → Bool
  | Stmt.deferCall path name args (some applied) =>
    decide (path = cfg.importPath) &&
      ((decide (name = cfg.call) && decide (args = contextArgs cfg m) && decide (applied = []))
        || (decide (name = cfg.call ++ ['f']) && (contextArgs cfg m).isPrefixOf args))
  | _ => false

/-- Modelled from the spec: a deferred call to the configured alias, whatever its
shape. -/
def isAliasCall (cfg : LogConfig) : Stmt → Bool
  | Stmt.deferCall path _ _ _ => decide (path = cfg.importPath)
  | Stmt.other _ => false

/-- Modelled from the spec: the MethodBodyAnalyzer of section 4.4, which looks at
the first statement of the body only.  The recognized call is Instrumented, a
leading deferred call to the same alias with a different shape is Malformed,
everything else (an empty body included) is Missing. -/
def analyze (cfg : LogConfig) (m : Method) : Verdict :=
  match m.body with
  | [] => Verdict.Missing
  | first :: _ =>
    if isRecognizedCall cfg m first then Verdict.Instrumented
    else if isAliasCall cfg first then Verdict.Malformed
    else Verdict.Missing

/-- Modelled from the spec: the statement that inject inserts, the configured
call in its plain shape, forwarding the context parameter when required. -/
def configuredCall (cfg : LogConfig) (m : Method) : Stmt :=
  Stmt.deferCall cfg.importPath cfg.call (contextArgs cfg m) (some [])

/-- Modelled from the spec: inject on one method (section 4.5): a matched method
with verdict Missing gets the configured call as its new first statement, every
other method is left as it is. -/
def injectMethod (cfg : LogConfig) (m : Method) : Method :=
  if m.matched && decide (analyze cfg m = Verdict.Missing) then
    { m with body := configuredCall cfg m :: m.body }
  else m

/-- Modelled from the spec: inject on one file. -/
def injectFile (cfg : LogConfig) (f : SourceFile) : SourceFile :=
  { f with methods := f.methods.map (injectMethod cfg) }

/-- Modelled from the spec: `inject(S)`, the source tree with the edits of
`inject` applied (`runInjector` with `checkOnly = false`, which is missing from
the sources). -/
def inject (cfg : LogConfig) (S : SourceTree) : SourceTree :=
  S.map (injectFile cfg)

/-- Modelled from the spec: one line of the check report of section 4.6: file,
type, method and verdict kind. -/
structure Violation where
  path : GoString
  typeName : GoString
  method : GoString
  verdict : Verdict
  deriving DecidableEq

/-- Modelled from the spec: the violations of one file, one for each matched
method whose verdict is Missing or Malformed. -/
def checkFile (cfg : LogConfig) (f : SourceFile) : List Violation :=
  (f.methods.filter fun m => m.matched && decide (analyze cfg m ≠ Verdict.Instrumented)).map
    fun m => ⟨f.path, m.typeName, m.name, analyze cfg m⟩

/-- Modelled from the spec: the report of `check` (`runInjector` with
`checkOnly = true`, which is missing from the sources): every violation, in
source order. -/
def check (cfg : LogConfig) (S : SourceTree) : List Violation :=
  S.flatMap (checkFile cfg)

/-- The key under which a violation is reported: file, type and method. -/
def Violation.key (v : Violation) : GoString × GoString × GoString :=
  (v.path, v.typeName, v.method)

/-- The default configuration of `gologcop`: `--call=LogCall`,
`--import=v.io/x/ref/lib/apilog`, `--use-v23-context=true`. -/
def defaultConfig : LogConfig :=
  { importPath := "v.io/x/ref/lib/apilog".toList, call := "LogCall".toList
    useContext := true }

/-- The scenario of section 8 of the specification: `func (t *T) Do() error { return nil }`
in a file of an implementation package, matched against `interface Doer { Do() error }`. -/
def doerTree : SourceTree :=
  [{ path := "impl.go".toList
     methods :=
      [{ typeName := "T".toList, name := "Do".toList, matched := true, ctxParam := none
         body := [Stmt.other "return nil".toList] }] }]

/-! ## The mojo profile: `Manager.initForTarget` of `mojo.go`

`profiles.VersionInfo.Lookup`, `profiles.Target` and `profiles.RelativePath`
belong to another repository.  The look-up is a parameter, a target is the
triple its accessors `Arch()`, `OS()` and `Version()` return, and a relative
path is the list of its components, to which `Join` appends. -/

/-- The struct `versionSpec` of `mojo.go`. -/
structure versionSpec where
  androidPlatformToolsVersion : GoString
  serviceNames : List GoString
  serviceNamesAndroid : List GoString
  serviceNamesLinux : List GoString
  buildVersionAndroid : GoString
  buildVersionLinux : GoString
  devtoolsVersion : GoString
  networkServiceVersion : GoString
  sdkVersion : GoString
  deriving DecidableEq

/-- What `initForTarget` reads of a `profiles.Target`. -/
structure Target where
  Arch : GoString
  OS : GoString
  Version : GoString
  deriving DecidableEq

/-- A `profiles.RelativePath`, as the list of its components. -/
abbrev RelativePath := List GoString

/-- `RelativePath.Join(components...)`. -/
def RelativePath.Join (p : RelativePath) (components : List GoString) : RelativePath :=
  p ++ components

/-- The fields of the struct `Manager` of `mojo.go` that `initForTarget` assigns
(`versionInfo` is read only, through the look-up). -/
structure Manager where
  root : RelativePath
  mojoRoot : RelativePath
  mojoInstDir : RelativePath
  androidPlatformToolsDir : RelativePath
  devtoolsDir : RelativePath
  sdkDir : RelativePath
  shellDir : RelativePath
  systemThunksDir : RelativePath
  spec : versionSpec
  buildVersion : GoString
  platform : GoString
  deriving DecidableEq

/-- The `error` of `initForTarget`: the one the version look-up returned, or the
one made by `fmt.Errorf` with the given message. -/
inductive InitError (ε : Type) where
  | lookup (e : ε)
  | errorf (msg : String)
  deriving DecidableEq

/-- The method `Manager.initForTarget` of `mojo.go`.  It returns the `error`
(`none` is Go `nil`) and the manager as the call leaves it; an early return
keeps the assignments made before it.  `Lookup` is `m.versionInfo.Lookup`,
returning the spec it stores into `m.spec`, and `TargetSpecificDirname` is the
method of that name of the target.  The lines printed in verbose mode do not
change the manager and are left out. -/
def initForTarget {ε : Type} (Lookup : GoString → Except ε versionSpec)
    (TargetSpecificDirname : Target → GoString) (m : Manager) (root : RelativePath)
    (target : Target) : Option (InitError ε) × Manager :=
  match Lookup target.Version with
  | Except.error err => (some (InitError.lookup err), m)
  | Except.ok spec =>
    let m := { m with spec := spec }
    let mojoArch := target.Arch
    let mojoArch := if mojoArch = "amd64".toList then "x64".toList else mojoArch
    let m := { m with platform := target.OS ++ "-".toList ++ mojoArch }
    if m.platform ≠ "linux-x64".toList ∧ m.platform ≠ "android-arm".toList then
      (some (InitError.errorf
        "only amd64-linux and arm-android targets are supported for mojo profile"), m)
    else
      let m := { m with buildVersion := m.spec.buildVersionLinux }
      let m :=
        if m.platform = "android-arm".toList then
          { m with buildVersion := m.spec.buildVersionAndroid }
        else m
      let m := { m with root := root }
      let m := { m with mojoRoot := root.Join ["mojo".toList] }
      let m := { m with devtoolsDir := m.mojoRoot.Join ["devtools".toList, m.spec.devtoolsVersion] }
      let m := { m with sdkDir := m.mojoRoot.Join ["mojo_sdk".toList, m.spec.sdkVersion] }
      let m := { m with mojoInstDir := m.mojoRoot.Join [TargetSpecificDirname target] }
      let m := { m with androidPlatformToolsDir :=
        m.mojoInstDir.Join ["platform-tools".toList, m.spec.androidPlatformToolsVersion] }
      let m := { m with shellDir := m.mojoInstDir.Join ["mojo_shell".toList, m.buildVersion] }
      let m := { m with systemThunksDir :=
        m.mojoInstDir.Join ["system_thunks".toList, m.buildVersion] }
      (none, m)

/-- The version spec registered by `init` in `mojo.go` under version `"1"`. -/
def versionSpec1 : versionSpec :=
  { serviceNames :=
      ["authenticating_url_loader_interceptor.mojo".toList, "dart_content_handler.mojo".toList,
        "debugger.mojo".toList, "kiosk_wm.mojo".toList, "tracing.mojo".toList]
    serviceNamesAndroid := []
    serviceNamesLinux := ["authentication.mojo".toList]
    buildVersionAndroid := "e2cd09460972dab4d1766153e108457fe5bbaed5".toList
    buildVersionLinux := "e2cd09460972dab4d1766153e108457fe5bbaed5".toList
    devtoolsVersion := "a264dd5ebdb5508d4e7e432b0ee3dcf6b1fb7160".toList
    networkServiceVersion := "0a814ed5512598e595c0ae7975a09d90a7a54e90".toList
    sdkVersion := "b3af6aeeea02c07e7ccb2c672a0ebcda0d6c42b4".toList
    androidPlatformToolsVersion := "2219198".toList }

/-- A version look-up in the registry that `init` builds: version `"1"` is the
only entry and the default (an empty version string selects the default). -/
def lookupRegistered (version : GoString) : Except String versionSpec :=
  if version = "1".toList ∨ version = [] then Except.ok versionSpec1
  else Except.error "unsupported version"

/-- The manager before `initForTarget` ran: every field has its zero value. -/
def zeroManager : Manager :=
  { root := [], mojoRoot := [], mojoInstDir := [], androidPlatformToolsDir := []
    devtoolsDir := [], sdkDir := [], shellDir := [], systemThunksDir := []
    spec :=
      { androidPlatformToolsVersion := [], serviceNames := [], serviceNamesAndroid := []
        serviceNamesLinux := [], buildVersionAndroid := [], buildVersionLinux := []
        devtoolsVersion := [], networkServiceVersion := [], sdkVersion := [] }
    buildVersion := [], platform := [] }

/-- A stand-in for `Target.TargetSpecificDirname`: architecture, underscore,
operating system. -/
def archUnderscoreOS (t : Target) : GoString :=
  t.Arch ++ "_".toList ++ t.OS

/-! ## Test results and the playground and VDL tests of `lib/testutil`

`testutil.TestResult`, `testutil.TestStatus`, `internalTestError` and the
`runutil` command runner are declared in files that are not part of the sources
at hand.  A test result is the record of the two fields the code sets; the
command runner is a parameter that threads the state `σ` of the outside world. -/

/-- The values of `testutil.TestStatus` that the sources name, and any other
value of that type by its number. -/
inductive TestStatus where
  | TestPassed
  | TestFailed
  | TestTimedOut
  | otherStatus (code : Nat)
  deriving DecidableEq

/-- A `time.Duration`: a number of nanoseconds. -/
abbrev Duration := Int

/-- The constant `time.Minute`. -/
def Minute : Duration := 60 * 1000000000

/-- The constant `defaultPlaygroundTestTimeout` of `playground.go`. -/
def defaultPlaygroundTestTimeout : Duration := 5 * Minute

/-- The fields of `testutil.TestResult` that the code sets; `TimeoutValue` has
the zero value when it is not set. -/
structure TestResult where
  Status : TestStatus
  TimeoutValue : Duration
  deriving DecidableEq

/-- A Go `error` of the test functions: an error `e` handed on as it came, or
`internalTestError{e, action}`. -/
inductive TestError (ε : Type) where
  | plain (e : ε)
  | internalTestError (e : ε) (action : GoString)
  deriving DecidableEq

/-- The command runner `ctx.Run()` as far as `playground.go` uses it, and the
error value `runutil.CommandTimedOutErr`. -/
structure PlaygroundRun (ε σ : Type) where
  Chdir : GoString → σ → Option ε × σ
  TimedCommand : Duration → GoString → List GoString → σ → Option ε × σ
  CommandTimedOutErr : ε

/-- The function `vanadiumPlaygroundSubtest` of `playground.go`, returning the
pair `(tr, err)` (`none` is Go `nil`) and the state of the world. -/
def vanadiumPlaygroundSubtest {ε σ : Type} [DecidableEq ε] (run : PlaygroundRun ε σ)
    (testName caseName casePath caseTarget : GoString) (w : σ) :
    (Option TestResult × Option (TestError ε)) × σ :=
  match run.Chdir casePath w with
  | (some err, w) => ((none, some (TestError.plain err)), w)
  | (none, w) =>
    match run.TimedCommand defaultPlaygroundTestTimeout "make".toList [caseTarget] w with
    | (some err, w) =>
      if err = run.CommandTimedOutErr then
        ((some { Status := TestStatus.TestTimedOut, TimeoutValue := defaultPlaygroundTestTimeout },
          none), w)
      else
        ((none, some (TestError.internalTestError err ("Make ".toList ++ caseTarget))), w)
    | (none, w) => ((none, none), w)

/-- A command runner to exercise the playground subtest: the world counts the
commands run, `Chdir` fails on the empty path with error `1`, and `make` fails
with the time-out error `0` on target `slow`, with error `2` on target `bad`. -/
def samplePlaygroundRun : PlaygroundRun Nat Nat where
  Chdir := fun path w => (if path = [] then some 1 else none, w + 1)
  TimedCommand := fun _ _ args w =>
    (if args = ["slow".toList] then some 0 else if args = ["bad".toList] then some 2 else none,
      w + 1)
  CommandTimedOutErr := 0

/-- What `veyronVDL` of `vdl.go` calls outside its file: `util.VeyronRoot`,
`filepath.Join`, the command runner with the environment variables the code
adds and the output the command wrote to `opts.Stdout` and `opts.Stderr`,
`util.VeyronEnvironment` with the `Get` of the environment it returns, and a
write to `ctx.Stdout()`. -/
structure VDLTools (ε σ : Type) where
  VeyronRoot : σ → Except ε GoString × σ
  Join : List GoString → GoString
  CommandWithOpts : List (GoString × GoString) → GoString → List GoString → σ →
    (Option ε × GoString) × σ
  VeyronEnvironment : σ → Except ε (GoString → GoString) × σ
  Stdout : GoString → σ → σ

/-- The method `testEnv.veyronVDL` of `vdl.go`. -/
def veyronVDL {ε σ : Type} (t : VDLTools ε σ) (testName : GoString) (w : σ) :
    (Option TestResult × Option ε) × σ :=
  match t.VeyronRoot w with
  | (Except.error err, w) => ((none, some err), w)
  | (Except.ok root, w) =>
    match t.CommandWithOpts [("GOPATH".toList, t.Join [root, "veyron".toList, "go".toList])]
        "go".toList ["install".toList, "veyron.io/veyron/veyron2/vdl/vdl".toList] w with
    | ((some err, _), w) => ((none, some err), w)
    | ((none, _), w) =>
      match t.VeyronEnvironment w with
      | (Except.error err, w) => ((none, some err), w)
      | (Except.ok venv, w) =>
        let vdl := t.Join [root, "veyron".toList, "go".toList, "bin".toList, "vdl".toList]
        match t.CommandWithOpts [("VDLPATH".toList, venv "VDLPATH".toList)] vdl
            ["audit".toList, "--lang=go".toList, "all".toList] w with
        | ((err, out), w) =>
          let output := TrimSpace out
          if err.isSome = true ∨ output.length ≠ 0 then
            ((some { Status := TestStatus.TestFailed, TimeoutValue := 0 }, none),
              t.Stdout (output ++ "\n".toList) w)
          else
            ((some { Status := TestStatus.TestPassed, TimeoutValue := 0 }, none), w)

/-- Collaborators to exercise `veyronVDL`: the world is the text written to
`ctx.Stdout()`; the install succeeds, and the audit prints `auditOut` and fails
exactly when `auditFails`. -/
def sampleVDLTools (auditFails : Bool) (auditOut : GoString) : VDLTools Nat GoString where
  VeyronRoot := fun w => (Except.ok "/root".toList, w)
  Join := fun parts => "/".toList.intercalate parts
  CommandWithOpts := fun _ _ args w =>
    if args.head? = some "audit".toList then
      ((if auditFails then some 1 else none, auditOut), w)
    else ((none, []), w)
  VeyronEnvironment := fun w => (Except.ok (fun _ => "/vdl".toList), w)
  Stdout := fun text w => w ++ text

/-! ## The `v23 test` commands of `v23/test.go`

`testutil.RunProjectTests`, `testutil.RunTests`, `util.NewContextFromCommand`,
`util.VanadiumGitRepoHost`, `TestStatus.String`, `command.UsageErrorf` and
`cmdline.ErrExitCode` are declared outside `test.go` and are parameters.  A
result map `map[string]*testutil.TestResult` is given by its entries in the
order in which a `range` statement visits them.  The world of a command is the
text written so far to `ctx.Stdout()` together with the rest of the outside
world. -/

/-- Go `strings.HasPrefix(s, prefix)`. -/
def HasPrefix (s pre : GoString) : Bool :=
  pre.isPrefixOf s

/-- The entries of a `map[string]*testutil.TestResult`, in `range` order. -/
abbrev TestResults := List (GoString × TestResult)

/-- The world of a `v23 test` command: the text written to `ctx.Stdout()` and
the rest of the outside world. -/
structure TestWorld (σ : Type) where
  stdout : GoString
  ext : σ

/-- The `error` a `v23 test` command returns: the usage error made by
`command.UsageErrorf(msg)`, the error `e` of the test runner, or
`cmdline.ErrExitCode(code)`. -/
inductive TestCmdError (ε : Type) where
  | usage (msg : String)
  | failure (e : ε)
  | ErrExitCode (code : Nat)
  deriving DecidableEq

/-- The collaborators of the `v23 test` commands that live outside `test.go`. -/
structure TestTools (Cmd Ctx ε σ : Type) where
  NewContextFromCommand : Cmd → Ctx
  VanadiumGitRepoHost : GoString
  RunProjectTests : Ctx → List GoString → TestWorld σ → Except ε TestResults × TestWorld σ
  RunTests : Ctx → List GoString → TestWorld σ → Except ε TestResults × TestWorld σ
  statusString : TestStatus → GoString

/-- What a `v23 test` command leaves behind: the returned `error` (`none` is Go
`nil`), the world, and the project lists and test-name lists it handed to
`RunProjectTests` and `RunTests`, in order. -/
structure TestCmdResult (ε σ : Type) where
  err : Option (TestCmdError ε)
  world : TestWorld σ
  projectRuns : List (List GoString)
  testRuns : List (List GoString)

/-- The function `printSummary` of `test.go`: one `Fprintf` for the heading and
one for each entry that the `range` loop visits. -/
def printSummary {σ : Type} (statusString : TestStatus → GoString) (results : TestResults)
    (w : TestWorld σ) : TestWorld σ :=
  results.foldl
    (fun w entry =>
      { w with stdout := w.stdout ++ (entry.1 ++ " ".toList ++ statusString entry.2.Status
          ++ "\n".toList) })
    { w with stdout := w.stdout ++ "SUMMARY:\n".toList }

/-- The loop that ends `runTestProject` and `runTestRun`:
`for _, result := range results { if result.Status != testutil.TestPassed { return cmdline.ErrExitCode(2) } }`
followed by `return nil`. -/
def returnExitCode {ε : Type} : TestResults → Option (TestCmdError ε)
  | [] => none
  | (_, result) :: rest =>
    if result.Status ≠ TestStatus.TestPassed then some (TestCmdError.ErrExitCode 2)
    else returnExitCode rest

/-- The function `runTestProject` of `test.go`. -/
def runTestProject {Cmd Ctx ε σ : Type} (t : TestTools Cmd Ctx ε σ) (command : Cmd)
    (args : List GoString) (w : TestWorld σ) : TestCmdResult ε σ :=
  match args with
  | [arg0] =>
    let ctx := t.NewContextFromCommand command
    let project := arg0
    let project :=
      if !HasPrefix project "http".toList then t.VanadiumGitRepoHost ++ project else project
    match t.RunProjectTests ctx [project] w with
    | (Except.error err, w) =>
      { err := some (TestCmdError.failure err), world := w, projectRuns := [[project]]
        testRuns := [] }
    | (Except.ok results, w) =>
      { err := returnExitCode results, world := printSummary t.statusString results w
        projectRuns := [[project]], testRuns := [] }
  | _ =>
    { err := some (TestCmdError.usage "unexpected number of arguments"), world := w
      projectRuns := [], testRuns := [] }

/-- The function `runTestRun` of `test.go`. -/
def runTestRun {Cmd Ctx ε σ : Type} (t : TestTools Cmd Ctx ε σ) (command : Cmd)
    (args : List GoString) (w : TestWorld σ) : TestCmdResult ε σ :=
  if args.length = 0 then
    { err := some (TestCmdError.usage "unexpected number of arguments"), world := w
      projectRuns := [], testRuns := [] }
  else
    let ctx := t.NewContextFromCommand command
    match t.RunTests ctx args w with
    | (Except.error err, w) =>
      { err := some (TestCmdError.failure err), world := w, projectRuns := [], testRuns := [args] }
    | (Except.ok results, w) =>
      { err := returnExitCode results, world := printSummary t.statusString results w
        projectRuns := [], testRuns := [args] }

/-- An argument of `v23 test project` is a basename when it names no path: it
holds no slash. -/
def isBasename (s : GoString) : Bool :=
  !s.contains '/'

/-- An argument of `v23 test project` is a full URL when it holds the scheme
separator `://`. -/
def isFullURL (s : GoString) : Bool :=
  s.tails.any fun rest => "://".toList.isPrefixOf rest

/-- Collaborators to exercise the `v23 test` commands: the repository host of
the documentation of `cmdTestProject`, a runner under which every test passes
except the one named `bad`, which fails, and the status names of the expected
output in `test_test.go`. -/
def sampleTestTools : TestTools Unit Unit Nat Unit where
  NewContextFromCommand := fun _ => ()
  VanadiumGitRepoHost := "https://vanadium.googlesource.com/".toList
  RunProjectTests := fun _ projects w =>
    (Except.ok [("ignore-this".toList, ⟨TestStatus.TestPassed, 0⟩)], w)
  RunTests := fun _ names w =>
    (Except.ok (names.map fun n =>
      (n, ⟨if n = "bad".toList then TestStatus.TestFailed else TestStatus.TestPassed, 0⟩)), w)
  statusString := fun s =>
    match s with
    | TestStatus.TestPassed => "PASSED".toList
    | TestStatus.TestFailed => "FAILED".toList
    | TestStatus.TestTimedOut => "TIMED OUT".toList
    | TestStatus.otherStatus _ => "UNKNOWN".toList

/-! ## The production services test of `jiri-test/internal/test/prod.go`

The packages `xunit`, `test`, `collect`, `project`, `retry`, the command runner
and the `Opt` types are declared outside `prod.go`.  The xUnit records carry the
fields the code sets, an option is one of the two kinds `getServiceOpts` looks
for or of some other kind, and the calls that leave the file are parameters
threading the state `σ` of the outside world. -/

/-- The fields of `xunit.Failure` that the code sets. -/
structure Failure where
  Message : GoString
  Data : GoString
  deriving DecidableEq

/-- The fields of `xunit.TestCase` that the code sets. -/
structure TestCase where
  Classname : GoString
  Name : GoString
  Time : GoString
  Failures : List Failure
  deriving DecidableEq

/-- The fields of `xunit.TestSuite` that the code sets. -/
structure TestSuite where
  Name : GoString
  Cases : List TestCase
  Tests : Int
  Failures : Int
  deriving DecidableEq

/-- The values of `test.Status` that `prod.go` names, and any other value of that
type by its number. -/
inductive Status where
  | Passed
  | Failed
  | otherStatus (code : Nat)
  deriving DecidableEq

/-- The field of `test.Result` that `prod.go` sets. -/
structure Result where
  Status : Status
  deriving DecidableEq

/-- An `Opt`: a `BlessingsRootOpt`, a `NamespaceRootOpt` (both are string types),
or an option of another kind. -/
inductive Opt where
  | BlessingsRootOpt (v : GoString)
  | NamespaceRootOpt (v : GoString)
  | otherOpt (kind : Nat)
  deriving DecidableEq

/-- The struct `prodService` of `prod.go`; the regular expression is kept as its
source text. -/
structure prodService where
  name : GoString
  objectName : GoString
  regexp : GoString
  deriving DecidableEq

/-- What `retry.Function` over `http.Get` followed by the JSON decoding of the
body leaves in `testIdentityProviderHTTP`: the error, the decoded response and
the `start` time of the last attempt. -/
structure BlessingRootFetch (ε : Type) where
  err : Option ε
  Names : List GoString
  PublicKey : GoString
  start : Int

/-- The calls of `prod.go` that leave the file. -/
structure ProdTools (ε σ : Type) where
  initTest : GoString → σ → Option ε × σ
  cleanup : σ → Option ε × σ
  V23Root : σ → Except ε GoString × σ
  Command : GoString → List GoString → σ → Option ε × σ
  TempDir : GoString → GoString → σ → Except ε GoString × σ
  RemoveAll : GoString → σ → Option ε × σ
  DefaultTimeout : Duration
  TimedCommand : Duration → GoString → List GoString → σ → Option ε × σ
  TimedCommandWithOpts : Duration → GoString → List GoString → σ → (Option ε × GoString) × σ
  regexpMatch : GoString → GoString → Bool
  fetchBlessingRoot : GoString → σ → BlessingRootFetch ε × σ
  CreateReport : GoString → List TestSuite → σ → Option ε × σ
  Now : σ → Int
  formatSeconds : Duration → GoString
  quote : GoString → GoString
  errorText : ε → GoString
  Join : List GoString → GoString
  Stdout : GoString → σ → σ
  Stderr : GoString → σ → σ

/-- The function `generateXUnitTestSuite` of `prod.go`; `formatSeconds duration`
is `fmt.Sprintf("%.2f", duration.Seconds())`. -/
def generateXUnitTestSuite {ε σ : Type} (t : ProdTools ε σ) (failure : Option Failure)
    (pkg : GoString) (duration : Duration) (w : σ) : TestSuite × σ :=
  let s : TestSuite := { Name := pkg, Cases := [], Tests := 0, Failures := 0 }
  let c : TestCase :=
    { Classname := pkg, Name := "Test".toList, Time := t.formatSeconds duration, Failures := [] }
  match failure with
  | some f =>
    let w := t.Stdout (pkg ++ " ... failed\n".toList ++ f.Data ++ "\n".toList) w
    let c := { c with Failures := c.Failures ++ [f] }
    let s := { s with Failures := s.Failures + 1 }
    let s := { s with Tests := s.Tests + 1 }
    let s := { s with Cases := s.Cases ++ [c] }
    (s, w)
  | none =>
    let w := t.Stdout (pkg ++ " ... ok\n".toList) w
    let s := { s with Tests := s.Tests + 1 }
    let s := { s with Cases := s.Cases ++ [c] }
    (s, w)

/-- The function `testSingleProdService` of `prod.go`. -/
def testSingleProdService {ε σ : Type} (t : ProdTools ε σ) (vroot principalDir : GoString)
    (service : prodService) (w : σ) : TestSuite × σ :=
  let bin := t.Join [vroot, "release".toList, "go".toList, "bin".toList, "vrpc".toList]
  let start := t.Now w
  let args : List GoString := []
  let args := if principalDir ≠ [] then args ++ ["--v23.credentials".toList, principalDir] else args
  let args := args ++ ["signature".toList, "--show-reserved".toList]
  let args := if principalDir = [] then args ++ ["--insecure".toList] else args
  let args := args ++ [service.objectName]
  match t.TimedCommandWithOpts t.DefaultTimeout bin args w with
  | ((some _, out), w) =>
    generateXUnitTestSuite t (some { Message := "vrpc".toList, Data := out }) service.name
      (t.Now w - start) w
  | ((none, out), w) =>
    if !t.regexpMatch service.regexp out then
      let w := t.Stderr ("couldn't match regexp ".toList ++ t.quote service.regexp
        ++ " in output:\n".toList ++ out ++ "\n".toList) w
      generateXUnitTestSuite t
        (some { Message := "vrpc".toList, Data := "mismatching signature".toList }) service.name
        (t.Now w - start) w
    else
      generateXUnitTestSuite t none service.name (t.Now w - start) w

/-- The slice `services` of `testAllProdServices` in `prod.go`. -/
def prodServices (namespaceRoot : GoString) : List prodService :=
  [{ name := "mounttable".toList, objectName := namespaceRoot
     regexp := "MountTable[[:space:]]+interface".toList },
   { name := "application repository".toList
     objectName := namespaceRoot ++ "/applications".toList
     regexp := "Application[[:space:]]+interface".toList },
   { name := "binary repository".toList, objectName := namespaceRoot ++ "/binaries".toList
     regexp := "Binary[[:space:]]+interface".toList },
   { name := "macaroon service".toList
     objectName := namespaceRoot ++ "/identity/dev.v.io/u/macaroon".toList
     regexp := "MacaroonBlesser[[:space:]]+interface".toList },
   { name := "google identity service".toList
     objectName := namespaceRoot ++ "/identity/dev.v.io/u/google".toList
     regexp := "OAuthBlesser[[:space:]]+interface".toList },
   { objectName := namespaceRoot ++ "/identity/dev.v.io/u/discharger".toList
     name := "binary discharger".toList
     regexp := "Discharger[[:space:]]+interface".toList },
   { objectName := namespaceRoot ++ "/proxy-mon/__debug".toList
     name := "proxy service".toList
     regexp := "__Reserved[[:space:]]+interface".toList }]

/-- The loop of `testAllProdServices` over a list of services. -/
def testProdServices {ε σ : Type} (t : ProdTools ε σ) (vroot principalDir : GoString) :
    List prodService → List TestSuite → σ → List TestSuite × σ
  | [], suites, w => (suites, w)
  | service :: rest, suites, w =>
    let r := testSingleProdService t vroot principalDir service w
    testProdServices t vroot principalDir rest (suites ++ [r.1]) r.2

/-- The function `testAllProdServices` of `prod.go`. -/
def testAllProdServices {ε σ : Type} (t : ProdTools ε σ)
    (vroot principalDir namespaceRoot : GoString) (w : σ) : List TestSuite × σ :=
  testProdServices t vroot principalDir (prodServices namespaceRoot) [] w

/-- The function `testIdentityProviderHTTP` of `prod.go`, returning the suite,
the public key and the blessing names. -/
def testIdentityProviderHTTP {ε σ : Type} (t : ProdTools ε σ) (blessingRoot : GoString)
    (w : σ) : (TestSuite × GoString × List GoString) × σ :=
  let url := "https://".toList ++ blessingRoot ++ "/auth/blessing-root".toList
  let fetched := t.fetchBlessingRoot url w
  let response := fetched.1
  let w := fetched.2
  let failure : Option Failure :=
    match response.err with
    | some err => some { Message := "identityd HTTP".toList, Data := t.errorText err }
    | none => none
  let r := generateXUnitTestSuite t failure url (t.Now w - response.start) w
  ((r.1, response.PublicKey, response.Names), r.2)

/-- The loop of `setupPrincipal` over the blessing names. -/
def recognizeBlessings {ε σ : Type} (t : ProdTools ε σ) (bin dir pubkey : GoString) :
    List GoString → σ → Option ε × σ
  | [], w => (none, w)
  | name :: rest, w =>
    match t.TimedCommand t.DefaultTimeout bin
        ["--v23.credentials".toList, dir, "recognize".toList, name, pubkey] w with
    | (some err, w) =>
      (some err, t.Stderr ("principal recognize ".toList ++ name ++ " ".toList ++ pubkey
        ++ " failed: ".toList ++ t.errorText err ++ "\n".toList) w)
    | (none, w) => recognizeBlessings t bin dir pubkey rest w

/-- The function `setupPrincipal` of `prod.go`. -/
def setupPrincipal {ε σ : Type} (t : ProdTools ε σ) (vroot tmpdir pubkey : GoString)
    (blessingNames : List GoString) (w : σ) : Except ε GoString × σ :=
  let dir := t.Join [tmpdir, "credentials".toList]
  let bin := t.Join [vroot, "release".toList, "go".toList, "bin".toList, "principal".toList]
  match t.TimedCommand t.DefaultTimeout bin
      ["create".toList, dir, "prod-services-tester".toList] w with
  | (some err, w) =>
    (Except.error err,
      t.Stderr ("principal create failed: ".toList ++ t.errorText err ++ "\n".toList) w)
  | (none, w) =>
    match recognizeBlessings t bin dir pubkey blessingNames w with
    | (some err, w) => (Except.error err, w)
    | (none, w) => (Except.ok dir, w)

/-- The function `getServiceOpts` of `prod.go`. -/
def getServiceOpts (opts : List Opt) : GoString × GoString :=
  opts.foldl
    (fun roots opt =>
      match opt with
      | Opt.BlessingsRootOpt v => (v, roots.2)
      | Opt.NamespaceRootOpt v => (roots.1, v)
      | Opt.otherOpt _ => roots)
    ("dev.v.io".toList, "/ns.dev.v.io:8101".toList)

/-- What a run of `vanadiumProdServicesTest` leaves behind: the returned result
and `error` (`none` is Go `nil`), the world, the suite of the identity provider
once it is tested, the names of the production services handed to
`testAllProdServices`, and the suites handed to `xunit.CreateReport` with the
error it returned, once it is called. -/
structure ProdRun (ε σ : Type) where
  result : Option Result
  err : Option (TestError ε)
  world : σ
  identitySuite : Option TestSuite
  servicesTested : List GoString
  report : Option (List TestSuite)
  reportErr : Option ε

/-- An early `return nil, err` of `vanadiumProdServicesTest`. -/
def returnError {ε σ : Type} (err : TestError ε) (w : σ) (identitySuite : Option TestSuite)
    (servicesTested : List GoString) : ProdRun ε σ :=
  { result := none, err := some err, world := w, identitySuite := identitySuite
    servicesTested := servicesTested, report := none, reportErr := none }

/-- The statement `defer collect.Error(f, &e)` at the return of the function:
`f` runs, and its error becomes the returned error when that one is nil. -/
def collectError {ε σ : Type} (f : σ → Option ε × σ) (r : ProdRun ε σ) : ProdRun ε σ :=
  let r2 := f r.world
  { r with
    world := r2.2
    err :=
      match r.err with
      | none => r2.1.map TestError.plain
      | some e => some e }

/-- The last loop of `vanadiumProdServicesTest`:
`for _, suite := range suites { if suite.Failures > 0 { return &test.Result{Status: test.Failed}, nil } }`
followed by `return &test.Result{Status: test.Passed}, nil`. -/
def returnStatus : List TestSuite → Result
  | [] => { Status := Status.Passed }
  | suite :: rest => if suite.Failures > 0 then { Status := Status.Failed } else returnStatus rest

/-- The part of `vanadiumProdServicesTest` from `getServiceOpts` to the end, run
with the root and the temporary directory found before. -/
def prodServicesTestBody {ε σ : Type} (t : ProdTools ε σ) (testName : GoString)
    (opts : List Opt) (vroot tmpdir : GoString) (w : σ) : ProdRun ε σ :=
  let roots := getServiceOpts opts
  let blessingRoot := roots.1
  let namespaceRoot := roots.2
  let suites : List TestSuite := []
  let identity := testIdentityProviderHTTP t blessingRoot w
  let suite := identity.1.1
  let pubkey := identity.1.2.1
  let blessingNames := identity.1.2.2
  let w := identity.2
  let suites := suites ++ [suite]
  let report (suites : List TestSuite) (servicesTested : List GoString) (w : σ) : ProdRun ε σ :=
    match t.CreateReport testName suites w with
    | (some err, w) =>
      { result := none, err := some (TestError.plain err), world := w
        identitySuite := some suite, servicesTested := servicesTested, report := some suites
        reportErr := some err }
    | (none, w) =>
      { result := some (returnStatus suites), err := none, world := w
        identitySuite := some suite, servicesTested := servicesTested, report := some suites
        reportErr := none }
  if suite.Failures = 0 then
    match setupPrincipal t vroot tmpdir pubkey blessingNames w with
    | (Except.error err, w) => returnError (TestError.plain err) w (some suite) []
    | (Except.ok principalDir, w) =>
      let tested := testAllProdServices t vroot principalDir namespaceRoot w
      report (suites ++ tested.1) ((prodServices namespaceRoot).map fun s => s.name) tested.2
  else report suites [] w

/-- The function `vanadiumProdServicesTest` of `prod.go`.  The two deferred
calls run at the return, the removal of the temporary directory before the
clean-up. -/
def vanadiumProdServicesTest {ε σ : Type} (t : ProdTools ε σ) (testName : GoString)
    (opts : List Opt) (w : σ) : ProdRun ε σ :=
  match t.initTest testName w with
  | (some err, w) => returnError (TestError.internalTestError err "Init".toList) w none []
  | (none, w) =>
    collectError t.cleanup <|
      match t.V23Root w with
      | (Except.error err, w) => returnError (TestError.plain err) w none []
      | (Except.ok vroot, w) =>
        match t.Command "v23".toList
            ["go".toList, "install".toList, "v.io/x/ref/cmd/vrpc".toList] w with
        | (some err, w) =>
          returnError (TestError.internalTestError err "Install VRPC".toList) w none []
        | (none, w) =>
          match t.Command "v23".toList
              ["go".toList, "install".toList, "v.io/x/ref/cmd/principal".toList] w with
          | (some err, w) =>
            returnError (TestError.internalTestError err "Install Principal".toList) w none []
          | (none, w) =>
            match t.TempDir [] "prod-services-test".toList w with
            | (Except.error err, w) =>
              returnError (TestError.internalTestError err "Create temporary directory".toList)
                w none []
            | (Except.ok tmpdir, w) =>
              collectError (t.RemoveAll tmpdir)
                (prodServicesTestBody t testName opts vroot tmpdir w)

/-- Collaborators to exercise the production services test: the world is the
list of object names that `vrpc` was asked about; the set-up succeeds, the
identity provider answers unless the blessing root is `down`, and every service
answers with its interface, which the regular expressions are taken to match,
except the one under `/binaries`, whose command fails when `binariesDown`. -/
def sampleProdTools (binariesDown : Bool) : ProdTools Nat (List GoString) where
  initTest := fun _ w => (none, w)
  cleanup := fun w => (none, w)
  V23Root := fun w => (Except.ok "/v".toList, w)
  Command := fun _ _ w => (none, w)
  TempDir := fun _ _ w => (Except.ok "/tmp/x".toList, w)
  RemoveAll := fun _ w => (none, w)
  DefaultTimeout := 10 * Minute
  TimedCommand := fun _ _ _ w => (none, w)
  TimedCommandWithOpts := fun _ _ args w =>
    ((if binariesDown && args.getLast? = some "/ns/binaries".toList then some 1 else none,
      "interface".toList), w ++ args.getLast?.toList)
  regexpMatch := fun _ _ => true
  fetchBlessingRoot := fun url w =>
    ({ err := if url = "https://down/auth/blessing-root".toList then some 2 else none
       Names := ["dev.v.io".toList], PublicKey := "key".toList, start := 0 }, w)
  CreateReport := fun _ _ w => (none, w)
  Now := fun _ => 0
  formatSeconds := fun _ => "0.00".toList
  quote := fun s => s
  errorText := fun _ => "error".toList
  Join := fun parts => "/".toList.intercalate parts
  Stdout := fun _ w => w
  Stderr := fun _ w => w

/-- The value of an option when it is a `BlessingsRootOpt`. -/
def blessingsRootValue : Opt → Option GoString
  | Opt.BlessingsRootOpt v => some v
  | _ => none

/-- The value of an option when it is a `NamespaceRootOpt`. -/
def namespaceRootValue : Opt → Option GoString
  | Opt.NamespaceRootOpt v => some v
  | _ => none

/-! ## The older generation of the tool: `logcop/cmd.go`

`logcop` has its own copy of `splitCommaSeparatedValues` and of `runCheck`; the
latter builds its context from three more flags. -/

namespace logcop

/-- The loop `for _, v := range strings.Split(s, ",")` of
`splitCommaSeparatedValues` in `logcop/cmd.go`, run over the components that are
still to be visited, with the slice `result` built so far. -/
def splitLoop : List GoString → List GoString → List GoString
  | [], result => result
  | v :: rest, result =>
    let trimmed := TrimSpace v
    if trimmed.length > 0 then splitLoop rest (result ++ [trimmed])
    else splitLoop rest result

/-- The function `splitCommaSeparatedValues` of `logcop/cmd.go`. -/
def splitCommaSeparatedValues (s : GoString) : List GoString :=
  splitLoop (Split s ',') []

/-- The struct `tool.ContextOpts` as `logcop/cmd.go` fills it, with the values
of the flags `-color`, `-n` and `-v`. -/
structure ContextOpts where
  Color : Bool
  DryRun : Bool
  Verbose : Bool
  deriving DecidableEq

/-- The collaborators of the `logcop` commands that live outside `cmd.go`. -/
structure Tools (Env Ctx ε σ : Type) where
  NewContextFromEnv : Env → ContextOpts → Ctx
  runInjector : Ctx → List GoString → List GoString → Bool → σ → Option ε × σ
  runRemover : Ctx → List GoString → σ → Option ε × σ

/-- The function `runCheck` of `logcop/cmd.go`; the flags are the package-level
variables `colorFlag`, `dryRunFlag`, `verboseFlag` and `interfacesFlag`. -/
def runCheck {Env Ctx ε σ : Type} (t : Tools Env Ctx ε σ)
    (colorFlag dryRunFlag verboseFlag : Bool) (interfacesFlag : GoString) (env : Env)
    (args : List GoString) (w : σ) : CmdResult Ctx ε σ :=
  let interfacePackageList := splitCommaSeparatedValues interfacesFlag
  let implementationPackageList := args
  if interfacePackageList.length = 0 then
    returnUsageErrorf "no interface packages listed" w
  else if implementationPackageList.length = 0 then
    returnUsageErrorf "no implementation package listed" w
  else
    let ctx := t.NewContextFromEnv env
      { Color := colorFlag, DryRun := dryRunFlag, Verbose := verboseFlag }
    let r := t.runInjector ctx interfacePackageList implementationPackageList true w
    { err := r.1.map CmdError.failure
      world := r.2
      injectorCalls := [⟨ctx, interfacePackageList, implementationPackageList, true⟩]
      removerCalls := [] }

end logcop

/-! ## The URL builders of `mojo.go` and `strings.Join` -/

/-- Go `strings.Join(elems, sep)`. -/
def Join (elems : List GoString) (sep : GoString) : GoString :=
  sep.intercalate elems

/-- The scan of a format string by `fmt.Sprintf`, for formats whose only verbs
are `%s` and `%%` and for string arguments; `verb` says that the character
before was the `%` that opens a verb.  Each `%s` is replaced by the next
argument, `%!s(MISSING)` stands for a `%s` without one, `%%` gives `%`, every
other character is copied. -/
def sprintfScan : Bool → GoString → List GoString → GoString
  | false, [], _ => []
  | true, [], _ => "%!(NOVERB)".toList
  | false, c :: rest, args =>
    if c = '%' then sprintfScan true rest args else c :: sprintfScan false rest args
  | true, c :: rest, args =>
    if c = 's' then
      match args with
      | a :: args2 => a ++ sprintfScan false rest args2
      | [] => "%!s(MISSING)".toList ++ sprintfScan false rest []
    else '%' :: sprintfScan false rest args

/-- Go `fmt.Sprintf(format, args...)` for formats whose only verbs are `%s` and
`%%` and for string arguments. -/
def Sprintf (format : GoString) (args : List GoString) : GoString :=
  sprintfScan false format args

/-- The constant `mojoStorageBucket` of `mojo.go`. -/
def mojoStorageBucket : GoString := "https://storage.googleapis.com/mojo".toList

/-- The function `mojoNetworkServiceUrl` of `mojo.go`. -/
def mojoNetworkServiceUrl (platform gitRevision : GoString) : GoString :=
  mojoStorageBucket
    ++ Sprintf "/network_service/%s/%s/network_service.mojo.zip".toList [gitRevision, platform]

/-- The function `mojoServiceUrl` of `mojo.go`. -/
def mojoServiceUrl (platform name gitRevision : GoString) : GoString :=
  mojoStorageBucket ++ Sprintf "/services/%s/%s/%s".toList [platform, gitRevision, name]

/-- The function `mojoShellUrl` of `mojo.go`. -/
def mojoShellUrl (platform gitRevision : GoString) : GoString :=
  mojoStorageBucket ++ Sprintf "/shell/%s/%s.zip".toList [gitRevision, platform]

/-- The function `mojoSystemThunksUrl` of `mojo.go`. -/
def mojoSystemThunksUrl (platform gitRevision : GoString) : GoString :=
  mojoStorageBucket
    ++ Sprintf "/system_thunks/%s/%s/libsystem_thunks.a".toList [platform, gitRevision]

/-! ## The installation of the mojo shell and services in `mojo.go`

A command sequence `jirix.NewSeq()` belongs to another repository: it runs each
call made on it at once unless an earlier call of the chain failed, and `Done`
returns the first error.  The calls a function makes on its sequence are
collected as a list of steps in source order, and the sequence is the run of
that list up to the first failure. -/

/-- A call on a command sequence: `MkdirAll(dir, perm)`, `Rename(src, dst)`, or a
`Call` of a function that does `profiles.Fetch(jirix, dst, url)` or
`profiles.Unzip(jirix, file, dir)`. -/
inductive SeqStep where
  | MkdirAll (dir : GoString)
  | Fetch (dst url : GoString)
  | Unzip (file dir : GoString)
  | Rename (src dst : GoString)
  deriving DecidableEq

/-- A call on the sequence of `installMojoShellAndServices`: one of the above, or
the `Call` of `m.installMojoNetworkService(jirix, outDir)`. -/
inductive ShellStep where
  | step (s : SeqStep)
  | installMojoNetworkService (outDir : GoString)
  deriving DecidableEq

/-- What the install functions of `mojo.go` call outside their file. -/
structure MojoTools (ε σ : Type) where
  Join : List GoString → GoString
  Dir : GoString → GoString
  TempDir : σ → Except ε GoString × σ
  RemoveAll : GoString → σ → Option ε × σ
  MkdirAll : GoString → σ → Option ε × σ
  Rename : GoString → GoString → σ → Option ε × σ
  Fetch : GoString → GoString → σ → Option ε × σ
  Unzip : GoString → GoString → σ → Option ε × σ
  AtomicAction : (σ → Option ε × σ) → GoString → String → σ → Option ε × σ

/-- The run of a chain of calls on a sequence, ended by `Done()`: the first
error, the world, and the calls that were run, the failing one included. -/
structure SeqRun (ε σ α : Type) where
  err : Option ε
  world : σ
  executed : List α

/-- The run of a list of steps up to the first failure. -/
def runSteps {ε σ α : Type} (run : α → σ → Option ε × σ) : List α → σ → SeqRun ε σ α
  | [], w => { err := none, world := w, executed := [] }
  | s :: rest, w =>
    match run s w with
    | (some err, w) => { err := some err, world := w, executed := [s] }
    | (none, w) =>
      let r := runSteps run rest w
      { r with executed := s :: r.executed }

/-- What one step does. -/
def runSeqStep {ε σ : Type} (t : MojoTools ε σ) : SeqStep → σ → Option ε × σ
  | SeqStep.MkdirAll dir => t.MkdirAll dir
  | SeqStep.Fetch dst url => t.Fetch dst url
  | SeqStep.Unzip file dir => t.Unzip file dir
  | SeqStep.Rename src dst => t.Rename src dst

/-- The method `Manager.installMojoNetworkService` of `mojo.go`.  The deferred
`RemoveAll(tmpDir)` runs at the return and its error is dropped. -/
def installMojoNetworkService {ε σ : Type} (t : MojoTools ε σ) (m : Manager)
    (outDir : GoString) (w : σ) : Option ε × σ :=
  match t.TempDir w with
  | (Except.error err, w) => (some err, w)
  | (Except.ok tmpDir, w) =>
    let networkServiceUrl := mojoNetworkServiceUrl m.platform m.spec.networkServiceVersion
    let networkServiceZipFile := t.Join [tmpDir, "network_service.mojo.zip".toList]
    let tmpFile := t.Join [tmpDir, "network_service.mojo".toList]
    let outFile := t.Join [outDir, "network_service.mojo".toList]
    let r := runSteps (runSeqStep t)
      [SeqStep.Fetch networkServiceZipFile networkServiceUrl,
        SeqStep.Unzip networkServiceZipFile tmpDir,
        SeqStep.MkdirAll (t.Dir outDir),
        SeqStep.Rename tmpFile outFile] w
    (r.err, (t.RemoveAll tmpDir r.world).2)

/-- What one step of `installMojoShellAndServices` does. -/
def runShellStep {ε σ : Type} (t : MojoTools ε σ) (m : Manager) : ShellStep → σ → Option ε × σ
  | ShellStep.step s => runSeqStep t s
  | ShellStep.installMojoNetworkService outDir => installMojoNetworkService t m outDir

/-- The first part of the function `fn` in `installMojoShellAndServices`: the
calls that install the mojo shell and the network service. -/
def mojoShellSteps (join : List GoString → GoString) (m : Manager) (tmpDir outDir : GoString) :
    List ShellStep :=
  let seq := [ShellStep.step (SeqStep.MkdirAll outDir)]
  let url := mojoShellUrl m.platform m.buildVersion
  let mojoShellZipFile := join [tmpDir, "mojo_shell.zip".toList]
  let seq := seq ++ [ShellStep.step (SeqStep.Fetch mojoShellZipFile url),
    ShellStep.step (SeqStep.Unzip mojoShellZipFile tmpDir)]
  let files := ["mojo_shell".toList, "mojo_shell_child".toList]
  let files := if m.platform = "android-arm".toList then ["MojoShell.apk".toList] else files
  let seq := files.foldl
    (fun seq file =>
      let tmpFile := join [tmpDir, file]
      let outFile := join [outDir, file]
      seq ++ [ShellStep.step (SeqStep.Rename tmpFile outFile)])
    seq
  seq ++ [ShellStep.installMojoNetworkService outDir]

/-- The slice `serviceNames` that `installMojoShellAndServices` builds under
"Install all other services". -/
def installedServiceNames (m : Manager) : List GoString :=
  let serviceNames := m.spec.serviceNames
  let serviceNames :=
    if m.platform = "android-arm".toList then serviceNames ++ m.spec.serviceNamesAndroid
    else serviceNames
  let serviceNames :=
    if m.platform = "linux-x64".toList then serviceNames ++ m.spec.serviceNamesLinux
    else serviceNames
  serviceNames

/-- The loop `for _, serviceName := range serviceNames` of
`installMojoShellAndServices`, run over the names still to visit, with the calls
made on the sequence so far. -/
def serviceFetchLoop (join : List GoString → GoString) (m : Manager) (outDir : GoString) :
    List GoString → List ShellStep → List ShellStep
  | [], seq => seq
  | serviceName :: rest, seq =>
    let outFile := join [outDir, serviceName]
    let serviceUrl := mojoServiceUrl m.platform serviceName m.buildVersion
    serviceFetchLoop join m outDir rest (seq ++ [ShellStep.step (SeqStep.Fetch outFile serviceUrl)])

/-- The calls that the function `fn` in `installMojoShellAndServices` makes on
its sequence, in order. -/
def shellAndServicesSteps (join : List GoString → GoString) (m : Manager)
    (tmpDir outDir : GoString) : List ShellStep :=
  serviceFetchLoop join m outDir (installedServiceNames m) (mojoShellSteps join m tmpDir outDir)

/-- The function `fn` in `installMojoShellAndServices`: the run of its sequence. -/
def installMojoShellAndServicesFn {ε σ : Type} (t : MojoTools ε σ) (m : Manager)
    (tmpDir outDir : GoString) (w : σ) : SeqRun ε σ ShellStep :=
  runSteps (runShellStep t m) (shellAndServicesSteps t.Join m tmpDir outDir) w

/-- The method `Manager.installMojoShellAndServices` of `mojo.go`.  The deferred
`RemoveAll(tmpDir)` runs at the return and its error is dropped. -/
def installMojoShellAndServices {ε σ : Type} (t : MojoTools ε σ) (m : Manager)
    (outDir : GoString) (w : σ) : Option ε × σ :=
  match t.TempDir w with
  | (Except.error err, w) => (some err, w)
  | (Except.ok tmpDir, w) =>
    let fn := fun w =>
      let r := installMojoShellAndServicesFn t m tmpDir outDir w
      (r.err, r.world)
    let r := t.AtomicAction fn outDir "install mojo_shell" w
    (r.1, (t.RemoveAll tmpDir r.2).2)

/-- Collaborators to exercise the install functions: the world is the list of
fetches made so far, each with its destination and its URL; every call succeeds
except a fetch of a URL that ends in `kiosk_wm.mojo` when `kioskDown`; the atomic
action runs its function. -/
def sampleMojoTools (kioskDown : Bool) : MojoTools Nat (List (GoString × GoString)) where
  Join := fun parts => "/".toList.intercalate parts
  Dir := fun path => path
  TempDir := fun w => (Except.ok "/tmp/m".toList, w)
  RemoveAll := fun _ w => (none, w)
  MkdirAll := fun _ w => (none, w)
  Rename := fun _ _ w => (none, w)
  Fetch := fun dst url w =>
    (if kioskDown && "kiosk_wm.mojo".toList.isSuffixOf url then some 1 else none,
      w ++ [(dst, url)])
  Unzip := fun _ _ w => (none, w)
  AtomicAction := fun fn _ _ w => fn w

/-- The manager after `initForTarget` for the target `amd64-linux` at the
registered version. -/
def linuxManager : Manager :=
  (initForTarget lookupRegistered archUnderscoreOS zeroManager ["root".toList]
    ⟨"amd64".toList, "linux".toList, "1".toList⟩).2

/-! ## The fetches of a run of the install functions

`profiles.Fetch` acts on the outside world.  What a run has fetched is read from
the world by an observation `fetched`, the list of the `(destination, URL)` pairs
of the fetches made so far. -/

/-- The collaborators of the install functions keep the record `fetched`:
`profiles.Fetch(jirix, dst, url)` adds `(dst, url)` to it, whether the fetch
succeeds or not, and no other collaborator changes it.  `profiles.AtomicAction`
runs its function: once, from a world with the same record, it adds no fetch of
its own, and it returns nil only when the function did. -/
structure RecordsFetches {ε σ : Type} (t : MojoTools ε σ)
    (fetched : σ → List (GoString × GoString)) : Prop where
  Fetch : ∀ dst url w, fetched (t.Fetch dst url w).2 = fetched w ++ [(dst, url)]
  TempDir : ∀ w, fetched (t.TempDir w).2 = fetched w
  RemoveAll : ∀ dir w, fetched (t.RemoveAll dir w).2 = fetched w
  MkdirAll : ∀ dir w, fetched (t.MkdirAll dir w).2 = fetched w
  Rename : ∀ src dst w, fetched (t.Rename src dst w).2 = fetched w
  Unzip : ∀ file dir w, fetched (t.Unzip file dir w).2 = fetched w
  AtomicAction : ∀ fn dir msg w, ∃ w0, fetched w0 = fetched w ∧
    fetched (t.AtomicAction fn dir msg w).2 = fetched (fn w0).2 ∧
    ((t.AtomicAction fn dir msg w).1 = none → (fn w0).1 = none)

/-- The fetches of a record that are fetches of a service: those from a URL
under `services/` of the storage bucket, where `mojoServiceUrl` points. -/
def serviceFetches (log : List (GoString × GoString)) : List (GoString × GoString) :=
  log.filter fun p => HasPrefix p.2 (mojoStorageBucket ++ "/services/".toList)

/-- The fetch of the service `serviceName` in the loop of
`installMojoShellAndServices`: `profiles.Fetch(jirix, outFile, serviceUrl)`, as
the pair of `outFile` and `serviceUrl`. -/
def serviceFetch (join : List GoString → GoString) (m : Manager)
    (outDir serviceName : GoString) : GoString × GoString :=
  (join [outDir, serviceName], mojoServiceUrl m.platform serviceName m.buildVersion)

/-- The fetch that a call on a sequence asks for. -/
def seqStepFetches : SeqStep → List (GoString × GoString)
  | SeqStep.Fetch dst url => [(dst, url)]
  | _ => []

/-- The service fetches that a call on the sequence of
`installMojoShellAndServices` asks for: `installMojoNetworkService` fetches the
network service only. -/
def shellStepServiceFetches : ShellStep → List (GoString × GoString)
  | ShellStep.step s => serviceFetches (seqStepFetches s)
  | ShellStep.installMojoNetworkService _ => []

/-! ## Properties of `splitCommaSeparatedValues` -/

theorem Split_ne_nil (s : GoString) (sep : Char) : Split s sep ≠ [] := by
  induction s with
  | nil => simp [Split]
  | cons c cs ih =>
    unfold Split
    split_ifs
    · simp
    · split <;> simp

theorem Split_eq_splitOn (s : GoString) (sep : Char) : Split s sep = List.splitOn sep s := by
  induction s with
  | nil => simp [Split, List.splitOn]
  | cons c cs ih =>
    unfold Split
    rw [List.splitOn, List.splitOnP_cons, ← List.splitOn, ← ih]
    by_cases h : c = sep
    · simp [h]
    · simp only [h, if_false, beq_iff_eq]
      cases hs : Split cs sep with
      | nil => exact absurd hs (Split_ne_nil cs sep)
      | cons first rest => simp

theorem TrimSpace_eq (v : GoString) :
    TrimSpace v = List.rdropWhile isSpace (v.dropWhile isSpace) := rfl

theorem foldl_splitStep (l : List GoString) (acc : List GoString) :
    l.foldl splitStep acc = acc ++ (l.map TrimSpace).filter fun v => !v.isEmpty := by
  induction l generalizing acc with
  | nil => simp
  | cons v vs ih =>
    rw [List.foldl_cons, ih]
    unfold splitStep
    cases h : TrimSpace v with
    | nil => simp [h]
    | cons a as => simp [h]

theorem splitCommaSeparatedValues_eq (s : GoString) :
    splitCommaSeparatedValues s = ((Split s ',').map TrimSpace).filter fun v => !v.isEmpty := by
  unfold splitCommaSeparatedValues
  rw [foldl_splitStep]
  simp

theorem not_mem_of_mem_Split (sep : Char) (s v : GoString) (h : v ∈ Split s sep) : sep ∉ v := by
  induction s generalizing v with
  | nil =>
    simp [Split] at h
    simp [h]
  | cons c cs ih =>
    unfold Split at h
    by_cases hc : c = sep
    · simp only [hc, if_true, List.mem_cons] at h
      rcases h with h | h
      · simp [h]
      · exact ih v h
    · simp only [hc, if_false] at h
      cases hs : Split cs sep with
      | nil => exact absurd hs (Split_ne_nil cs sep)
      | cons first rest =>
        rw [hs] at h
        simp only [List.mem_cons] at h
        rcases h with h | h
        · subst h
          have := ih first (by simp [hs])
          simp only [List.mem_cons, not_or]
          exact ⟨fun e => hc e.symm, this⟩
        · exact ih v (by simp [hs, h])

theorem TrimSpace_sublist (v : GoString) : (TrimSpace v).Sublist v := by
  rw [TrimSpace_eq]
  exact (List.rdropWhile_prefix isSpace _).sublist.trans (List.dropWhile_suffix isSpace).sublist

theorem TrimSpace_head (v : GoString) (c : Char) (h : (TrimSpace v).head? = some c) :
    isSpace c = false := by
  rw [TrimSpace_eq] at h
  obtain ⟨t, ht⟩ := List.rdropWhile_prefix isSpace (v.dropWhile isSpace)
  cases hr : List.rdropWhile isSpace (v.dropWhile isSpace) with
  | nil => simp [hr] at h
  | cons a as =>
    rw [hr] at h ht
    simp only [List.head?_cons, Option.some.injEq] at h
    subst h
    have hd := List.head?_dropWhile_not isSpace v
    rw [← ht] at hd
    simpa using hd

theorem TrimSpace_getLast (v : GoString) (c : Char) (h : (TrimSpace v).getLast? = some c) :
    isSpace c = false := by
  rw [TrimSpace_eq] at h
  have hne : List.rdropWhile isSpace (v.dropWhile isSpace) ≠ [] := by
    intro e
    simp [e] at h
  have hl := List.rdropWhile_last_not isSpace (v.dropWhile isSpace) hne
  rw [List.getLast?_eq_getLast _ hne] at h
  simp only [Option.some.injEq] at h
  rw [h] at hl
  simpa using hl

/-- C1: `splitCommaSeparatedValues s` is the list obtained by splitting `s` at
every comma, trimming the white space around each component and dropping the
components that are empty after trimming, in the original order; and
`splitCommaSeparatedValues "x, y,z,"` is `["x", "y", "z"]`. -/
theorem splitCommaSeparatedValues_spec :
    (∀ s : GoString, splitCommaSeparatedValues s = splitTrimDropEmpty s) ∧
      splitCommaSeparatedValues "x, y,z,".toList = ["x".toList, "y".toList, "z".toList] := by
  refine ⟨fun s => ?_, by decide⟩
  rw [splitCommaSeparatedValues_eq, Split_eq_splitOn]
  rfl

/-- C2: every element of `splitCommaSeparatedValues s` is non-empty, starts and
ends with a character that is not white space, and contains no comma. -/
theorem splitCommaSeparatedValues_elements (s x : GoString)
    (hx : x ∈ splitCommaSeparatedValues s) :
    x ≠ [] ∧ (∀ c, x.head? = some c → isSpace c = false) ∧
      (∀ c, x.getLast? = some c → isSpace c = false) ∧ ',' ∉ x := by
  rw [splitCommaSeparatedValues_eq, List.mem_filter, List.mem_map] at hx
  obtain ⟨⟨v, hv, rfl⟩, hne⟩ := hx
  refine ⟨?_, TrimSpace_head v, TrimSpace_getLast v, ?_⟩
  · intro e
    simp [e] at hne
  · intro hc
    exact not_mem_of_mem_Split ',' s v hv ((TrimSpace_sublist v).subset hc)

theorem splitCommaSeparatedValues_elements_witness :
    "y".toList ∈ splitCommaSeparatedValues "x, y,z,".toList ∧
      ("y".toList ≠ [] ∧ (∀ c, "y".toList.head? = some c → isSpace c = false) ∧
        (∀ c, "y".toList.getLast? = some c → isSpace c = false) ∧ ',' ∉ "y".toList) :=
  ⟨by decide, splitCommaSeparatedValues_elements "x, y,z,".toList "y".toList (by decide)⟩

/-! ## Properties of `runCheck` and `runInject` -/

theorem TrimSpace_eq_nil_iff (v : GoString) :
    TrimSpace v = [] ↔ ∀ c ∈ v, isSpace c = true := by
  rw [TrimSpace_eq, List.rdropWhile_eq_nil_iff]
  constructor
  · intro h
    have hd := List.head?_dropWhile_not isSpace v
    cases hv : v.dropWhile isSpace with
    | nil => exact List.dropWhile_eq_nil_iff.mp hv
    | cons a as =>
      rw [hv] at hd h
      simp only [List.head?_cons] at hd
      have := h a (by simp)
      rw [hd] at this
      cases this
  · intro h x hx
    exact h x ((List.dropWhile_suffix isSpace).subset hx)

theorem splitCommaSeparatedValues_eq_nil_iff (s : GoString) :
    splitCommaSeparatedValues s = [] ↔ ∀ v ∈ Split s ',', ∀ c ∈ v, isSpace c = true := by
  rw [splitCommaSeparatedValues_eq, List.filter_eq_nil_iff]
  constructor
  · intro h v hv
    have := h (TrimSpace v) (List.mem_map_of_mem _ hv)
    rw [← TrimSpace_eq_nil_iff]
    simpa using this
  · intro h x hx
    obtain ⟨v, hv, rfl⟩ := List.mem_map.mp hx
    have := (TrimSpace_eq_nil_iff v).mpr (h v hv)
    simp [this]

/-- C3: when every comma-separated component of the `--interface` value is empty
or white space only, `runCheck` returns the usage error "no interface packages
listed" for every argument list, invokes the injector not at all and leaves the
world as it found it. -/
theorem runCheck_no_interface {Env Ctx ε σ : Type} (t : Tools Env Ctx ε σ)
    (interfacesFlag : GoString) (env : Env) (args : List GoString) (w : σ)
    (h : ∀ v ∈ Split interfacesFlag ',', ∀ c ∈ v, isSpace c = true) :
    (runCheck t interfacesFlag env args w).err
        = some (CmdError.usage "no interface packages listed") ∧
      (runCheck t interfacesFlag env args w).injectorCalls = [] ∧
      (runCheck t interfacesFlag env args w).world = w := by
  have h0 := (splitCommaSeparatedValues_eq_nil_iff interfacesFlag).mpr h
  simp [runCheck, h0, returnUsageErrorf]

theorem runCheck_no_interface_witness :
    (∀ v ∈ Split " ,\t,".toList ',', ∀ c ∈ v, isSpace c = true) ∧
      ((runCheck sampleTools " ,\t,".toList () ["a/b".toList] 0).err
          = some (CmdError.usage "no interface packages listed") ∧
        (runCheck sampleTools " ,\t,".toList () ["a/b".toList] 0).injectorCalls = [] ∧
        (runCheck sampleTools " ,\t,".toList () ["a/b".toList] 0).world = 0) :=
  ⟨by decide, runCheck_no_interface sampleTools " ,\t,".toList () ["a/b".toList] 0 (by decide)⟩

/-- C4: when the `--interface` value yields at least one package path and the
list of implementation packages is empty, `runCheck` returns the usage error
"no implementation package listed" and invokes the injector not at all. -/
theorem runCheck_no_implementation {Env Ctx ε σ : Type} (t : Tools Env Ctx ε σ)
    (interfacesFlag : GoString) (env : Env) (w : σ)
    (h : splitCommaSeparatedValues interfacesFlag ≠ []) :
    (runCheck t interfacesFlag env [] w).err
        = some (CmdError.usage "no implementation package listed") ∧
      (runCheck t interfacesFlag env [] w).injectorCalls = [] ∧
      (runCheck t interfacesFlag env [] w).world = w := by
  simp [runCheck, h, returnUsageErrorf]

theorem runCheck_no_implementation_witness :
    splitCommaSeparatedValues "x, y,z,".toList ≠ [] ∧
      ((runCheck sampleTools "x, y,z,".toList () [] 0).err
          = some (CmdError.usage "no implementation package listed") ∧
        (runCheck sampleTools "x, y,z,".toList () [] 0).injectorCalls = [] ∧
        (runCheck sampleTools "x, y,z,".toList () [] 0).world = 0) :=
  ⟨by decide, runCheck_no_implementation sampleTools "x, y,z,".toList () 0 (by decide)⟩

/-- C5: `runInject` with an empty `--interface` value does not stop with a
configuration error: whatever the collaborators, the argument list and the
world, it invokes the injector once, on the empty interface list in injection
mode, and returns what the injector returns, never a usage error. -/
theorem runInject_empty_interface_runs_injector {Env Ctx ε σ : Type}
    (t : Tools Env Ctx ε σ) (env : Env) (args : List GoString) (w : σ) :
    splitCommaSeparatedValues [] = [] ∧
      (runInject t [] env args w).injectorCalls
        = [⟨t.NewContextFromEnv env, [], args, false⟩] ∧
      (runInject t [] env args w).err
        = (t.runInjector (t.NewContextFromEnv env) [] args false w).1.map CmdError.failure ∧
      (runInject t [] env args w).world
        = (t.runInjector (t.NewContextFromEnv env) [] args false w).2 ∧
      (runInject sampleTools [] () ["a/b".toList] 0).err = none ∧
      (runInject sampleTools [] () ["a/b".toList] 0).world = 1 := by
  refine ⟨by decide, ?_, ?_, ?_, by decide, by decide⟩ <;>
    simp [runInject, returnRunInjector, show splitCommaSeparatedValues [] = [] by decide]

/-- C6: when both package lists are non-empty, `runCheck` returns the result of
the injector run on `(splitCommaSeparatedValues interfacesFlag, args)` with
`checkOnly = true`, and `runInject` runs the injector on the same two lists with
`checkOnly = false`; on no input at all does `runCheck` invoke the injector with
`checkOnly = false`. -/
theorem runCheck_runInject_modes {Env Ctx ε σ : Type} (t : Tools Env Ctx ε σ)
    (interfacesFlag : GoString) (env : Env) (args : List GoString) (w : σ)
    (hi : splitCommaSeparatedValues interfacesFlag ≠ []) (ha : args ≠ []) :
    ((runCheck t interfacesFlag env args w).injectorCalls
        = [⟨t.NewContextFromEnv env, splitCommaSeparatedValues interfacesFlag, args, true⟩] ∧
      (runCheck t interfacesFlag env args w).err
        = (t.runInjector (t.NewContextFromEnv env) (splitCommaSeparatedValues interfacesFlag)
            args true w).1.map CmdError.failure ∧
      (runCheck t interfacesFlag env args w).world
        = (t.runInjector (t.NewContextFromEnv env) (splitCommaSeparatedValues interfacesFlag)
            args true w).2) ∧
    ((runInject t interfacesFlag env args w).injectorCalls
        = [⟨t.NewContextFromEnv env, splitCommaSeparatedValues interfacesFlag, args, false⟩] ∧
      (runInject t interfacesFlag env args w).err
        = (t.runInjector (t.NewContextFromEnv env) (splitCommaSeparatedValues interfacesFlag)
            args false w).1.map CmdError.failure ∧
      (runInject t interfacesFlag env args w).world
        = (t.runInjector (t.NewContextFromEnv env) (splitCommaSeparatedValues interfacesFlag)
            args false w).2) ∧
    (∀ (flag : GoString) (args1 : List GoString) (w1 : σ),
      ∀ c ∈ (runCheck t flag env args1 w1).injectorCalls, c.checkOnly = true) := by
  refine ⟨?_, ?_, ?_⟩
  · simp [runCheck, hi, ha, returnRunInjector]
  · simp [runInject, returnRunInjector]
  · intro flag args1 w1 c hc
    unfold runCheck at hc
    simp only [returnUsageErrorf, returnRunInjector] at hc
    split_ifs at hc
    · simp at hc
    · simp at hc
    · simp only [List.mem_singleton] at hc
      rw [hc]

theorem runCheck_runInject_modes_witness :
    (runCheck sampleTools "x, y,z,".toList () ["a/b".toList] 0).err
        = some (CmdError.failure 7) ∧
      (runCheck sampleTools "x, y,z,".toList () ["a/b".toList] 0).injectorCalls
        = [⟨(), ["x".toList, "y".toList, "z".toList], ["a/b".toList], true⟩] ∧
      (runInject sampleTools "x, y,z,".toList () ["a/b".toList] 0).injectorCalls
        = [⟨(), ["x".toList, "y".toList, "z".toList], ["a/b".toList], false⟩] := by
  have h := runCheck_runInject_modes sampleTools "x, y,z,".toList () ["a/b".toList] 0
    (by decide) (by decide)
  refine ⟨?_, ?_, ?_⟩
  · rw [h.1.2.1]; decide
  · rw [h.1.1]; decide
  · rw [h.2.1.1]; decide

/-! ## Properties of the injector -/

theorem isAliasCall_of_isRecognizedCall (cfg : LogConfig) (m : Method) (st : Stmt)
    (h : isRecognizedCall cfg m st = true) : isAliasCall cfg st = true := by
  cases st with
  | other text => simp [isRecognizedCall] at h
  | deferCall path name args applied =>
    cases applied with
    | none => simp [isRecognizedCall] at h
    | some r =>
      simp only [isRecognizedCall, Bool.and_eq_true, decide_eq_true_eq] at h
      simp [isAliasCall, h.1]

theorem isRecognizedCall_configuredCall (cfg : LogConfig) (m : Method) (body : List Stmt) :
    isRecognizedCall cfg { m with body := body } (configuredCall cfg m) = true := by
  simp [isRecognizedCall, configuredCall, contextArgs]

theorem analyze_cons_configuredCall (cfg : LogConfig) (m : Method) :
    analyze cfg { m with body := configuredCall cfg m :: m.body } = Verdict.Instrumented := by
  simp [analyze, isRecognizedCall_configuredCall]

theorem injectMethod_of_missing (cfg : LogConfig) (m : Method) (hm : m.matched = true)
    (h : analyze cfg m = Verdict.Missing) :
    injectMethod cfg m = { m with body := configuredCall cfg m :: m.body } := by
  simp [injectMethod, hm, h]

theorem injectMethod_of_not_missing (cfg : LogConfig) (m : Method)
    (h : analyze cfg m ≠ Verdict.Missing) : injectMethod cfg m = m := by
  simp [injectMethod, h]

theorem injectMethod_of_not_matched (cfg : LogConfig) (m : Method) (hm : m.matched = false) :
    injectMethod cfg m = m := by
  simp [injectMethod, hm]

theorem injectMethod_idempotent (cfg : LogConfig) (m : Method) :
    injectMethod cfg (injectMethod cfg m) = injectMethod cfg m := by
  cases hm : m.matched with
  | false => rw [injectMethod_of_not_matched cfg m hm, injectMethod_of_not_matched cfg m hm]
  | true =>
    by_cases h : analyze cfg m = Verdict.Missing
    · rw [injectMethod_of_missing cfg m hm h]
      apply injectMethod_of_not_missing
      rw [analyze_cons_configuredCall]
      decide
    · rw [injectMethod_of_not_missing cfg m h, injectMethod_of_not_missing cfg m h]

/-- C7: inject is idempotent, `inject(inject(S)) = inject(S)` for every source
tree `S`, and a method that is already Instrumented is left as it is. -/
theorem inject_idempotent :
    (∀ (cfg : LogConfig) (S : SourceTree), inject cfg (inject cfg S) = inject cfg S) ∧
      (∀ (cfg : LogConfig) (m : Method),
        analyze cfg m = Verdict.Instrumented → injectMethod cfg m = m) := by
  constructor
  · intro cfg S
    simp only [inject, List.map_map]
    apply List.map_congr_left
    intro f _
    simp only [Function.comp, injectFile, List.map_map]
    congr 1
    apply List.map_congr_left
    intro m _
    exact injectMethod_idempotent cfg m
  · intro cfg m h
    apply injectMethod_of_not_missing
    rw [h]
    decide

theorem inject_idempotent_witness :
    inject defaultConfig (inject defaultConfig doerTree) = inject defaultConfig doerTree ∧
      injectMethod defaultConfig
          { typeName := "T".toList, name := "Do".toList, matched := true, ctxParam := none
            body := [Stmt.deferCall "v.io/x/ref/lib/apilog".toList "LogCall".toList [] (some [])] }
        = { typeName := "T".toList, name := "Do".toList, matched := true, ctxParam := none
            body := [Stmt.deferCall "v.io/x/ref/lib/apilog".toList "LogCall".toList [] (some [])] } :=
  ⟨inject_idempotent.1 defaultConfig doerTree, inject_idempotent.2 defaultConfig _ (by decide)⟩

theorem analyze_ne_missing_iff (cfg : LogConfig) (m : Method) :
    analyze cfg m ≠ Verdict.Missing ↔ ∃ first rest, m.body = first :: rest ∧
      isAliasCall cfg first = true := by
  unfold analyze
  cases hb : m.body with
  | nil => simp
  | cons first rest =>
    simp only [List.cons.injEq, exists_and_right, exists_eq', true_and]
    by_cases hr : isRecognizedCall cfg m first = true
    · simp [hr, isAliasCall_of_isRecognizedCall cfg m first hr]
    · by_cases ha : isAliasCall cfg first = true
      · simp [hr, ha]
      · simp [hr, ha]

theorem analyze_congr_body (cfg : LogConfig) (m : Method) (body : List Stmt) :
    analyze cfg { m with body := body } ≠ Verdict.Missing ↔ ∃ first rest, body = first :: rest ∧
      isAliasCall cfg first = true :=
  analyze_ne_missing_iff cfg { m with body := body }

theorem injectMethod_fields (cfg : LogConfig) (m : Method) :
    (injectMethod cfg m).matched = m.matched ∧ (injectMethod cfg m).typeName = m.typeName ∧
      (injectMethod cfg m).name = m.name := by
  unfold injectMethod
  split_ifs <;> simp

theorem analyze_injectMethod (cfg : LogConfig) (m : Method) (hm : m.matched = true) :
    analyze cfg (injectMethod cfg m)
      = if analyze cfg m = Verdict.Missing then Verdict.Instrumented else analyze cfg m := by
  by_cases h : analyze cfg m = Verdict.Missing
  · rw [injectMethod_of_missing cfg m hm h, analyze_cons_configuredCall, if_pos h]
  · rw [injectMethod_of_not_missing cfg m h, if_neg h]

theorem checkFile_cons (cfg : LogConfig) (path : GoString) (m : Method) (ms : List Method) :
    checkFile cfg ⟨path, m :: ms⟩
      = (if (m.matched && decide (analyze cfg m ≠ Verdict.Instrumented)) = true then
          [(⟨path, m.typeName, m.name, analyze cfg m⟩ : Violation)] else [])
        ++ checkFile cfg ⟨path, ms⟩ := by
  unfold checkFile
  simp only [List.filter_cons]
  split_ifs <;> simp

theorem checkFile_injectFile (cfg : LogConfig) (path : GoString) (ms : List Method) :
    checkFile cfg (injectFile cfg ⟨path, ms⟩)
      = (checkFile cfg ⟨path, ms⟩).filter fun v => decide (v.verdict ≠ Verdict.Missing) := by
  induction ms with
  | nil => simp [checkFile, injectFile]
  | cons m ms ih =>
    have hcons : injectFile cfg ⟨path, m :: ms⟩
        = ⟨path, injectMethod cfg m :: (injectFile cfg ⟨path, ms⟩).methods⟩ := rfl
    have htail : (⟨path, (injectFile cfg ⟨path, ms⟩).methods⟩ : SourceFile)
        = injectFile cfg ⟨path, ms⟩ := rfl
    rw [hcons, checkFile_cons, htail, ih, checkFile_cons, List.filter_append]
    congr 1
    obtain ⟨h1, h2, h3⟩ := injectMethod_fields cfg m
    rw [h1, h2, h3]
    cases hm : m.matched with
    | false => simp
    | true =>
      rw [analyze_injectMethod cfg m hm]
      cases hv : analyze cfg m <;> simp

/-- C9: the report of check on `inject(S)` is the report of check on `S` without
its Missing entries, every other entry unchanged and in place; so when each
method is reported at most once, a method that check reports as Missing in `S`
has no violation at all in the report on `inject(S)`. -/
theorem check_inject (cfg : LogConfig) (S : SourceTree) :
    check cfg (inject cfg S)
        = (check cfg S).filter (fun v => decide (v.verdict ≠ Verdict.Missing)) ∧
      (((check cfg S).map Violation.key).Nodup →
        ∀ v ∈ check cfg S, v.verdict = Verdict.Missing →
          ∀ v1 ∈ check cfg (inject cfg S), v1.key ≠ v.key) := by
  have hfilter : check cfg (inject cfg S)
      = (check cfg S).filter (fun v => decide (v.verdict ≠ Verdict.Missing)) := by
    induction S with
    | nil => simp [check, inject]
    | cons f fs ih =>
      simp only [check, inject, List.map_cons, List.flatMap_cons, List.filter_append] at ih ⊢
      rw [ih]
      congr 1
      exact checkFile_injectFile cfg f.path f.methods
  refine ⟨hfilter, ?_⟩
  intro hnodup v hv hmissing v1 hv1 hkey
  rw [hfilter, List.mem_filter] at hv1
  have heq : v1 = v := List.inj_on_of_nodup_map hnodup hv1.1 hv hkey
  rw [heq, hmissing] at hv1
  simp at hv1

theorem check_inject_witness :
    check defaultConfig doerTree
        = [⟨"impl.go".toList, "T".toList, "Do".toList, Verdict.Missing⟩] ∧
      check defaultConfig (inject defaultConfig doerTree) = [] ∧
      (∀ v1 ∈ check defaultConfig (inject defaultConfig doerTree),
        v1.key ≠ Violation.key ⟨"impl.go".toList, "T".toList, "Do".toList, Verdict.Missing⟩) :=
  ⟨by decide, by decide,
    (check_inject defaultConfig doerTree).2 (by decide)
      ⟨"impl.go".toList, "T".toList, "Do".toList, Verdict.Missing⟩ (by decide) rfl⟩

/-! ## Properties of `Manager.initForTarget` -/

theorem append_sep_inj (sep : Char) (a b a1 b1 : GoString) (ha1 : sep ∉ a1) (hb1 : sep ∉ b1)
    (h : a ++ sep :: b = a1 ++ sep :: b1) : a = a1 ∧ b = b1 := by
  rcases List.append_eq_append_iff.mp h with ⟨c, hc1, hc2⟩ | ⟨c, hc1, hc2⟩
  · cases c with
    | nil =>
      simp only [List.append_nil, List.nil_append, List.cons.injEq, true_and] at hc1 hc2
      exact ⟨hc1.symm, hc2⟩
    | cons x xs =>
      simp only [List.cons_append, List.cons.injEq] at hc2
      rw [hc1, ← hc2.1] at ha1
      simp at ha1
  · cases c with
    | nil =>
      simp only [List.append_nil, List.nil_append, List.cons.injEq, true_and] at hc1 hc2
      exact ⟨hc1, hc2.symm⟩
    | cons x xs =>
      simp only [List.cons_append, List.cons.injEq] at hc2
      rw [hc2.2] at hb1
      simp at hb1

theorem initForTarget_fst {ε : Type} (Lookup : GoString → Except ε versionSpec)
    (dirname : Target → GoString) (m : Manager) (root : RelativePath) (target : Target)
    (spec : versionSpec) (hl : Lookup target.Version = Except.ok spec) :
    (initForTarget Lookup dirname m root target).1
      = if target.OS ++ "-".toList
              ++ (if target.Arch = "amd64".toList then "x64".toList else target.Arch)
              ≠ "linux-x64".toList ∧
            target.OS ++ "-".toList
              ++ (if target.Arch = "amd64".toList then "x64".toList else target.Arch)
              ≠ "android-arm".toList then
          some (InitError.errorf
            "only amd64-linux and arm-android targets are supported for mojo profile")
        else none := by
  unfold initForTarget
  simp only [hl]
  split_ifs <;> rfl

theorem platform_eq_linux_x64_iff (os arch : GoString) :
    os ++ "-".toList ++ arch = "linux-x64".toList ↔ os = "linux".toList ∧ arch = "x64".toList := by
  constructor
  · intro h
    exact append_sep_inj '-' os arch "linux".toList "x64".toList (by decide) (by decide)
      (by simpa using h)
  · rintro ⟨rfl, rfl⟩
    decide

theorem platform_eq_android_arm_iff (os arch : GoString) :
    os ++ "-".toList ++ arch = "android-arm".toList ↔
      os = "android".toList ∧ arch = "arm".toList := by
  constructor
  · intro h
    exact append_sep_inj '-' os arch "android".toList "arm".toList (by decide) (by decide)
      (by simpa using h)
  · rintro ⟨rfl, rfl⟩
    decide

/-- What `initForTarget` accepts, in terms of the target: the operating system
`linux` with architecture `amd64` or `x64`, or `android` with `arm`. -/
theorem initForTarget_none_iff {ε : Type} (Lookup : GoString → Except ε versionSpec)
    (dirname : Target → GoString) (m : Manager) (root : RelativePath) (target : Target)
    (spec : versionSpec) (hl : Lookup target.Version = Except.ok spec) :
    (initForTarget Lookup dirname m root target).1 = none ↔
      (target.OS = "linux".toList ∧ (target.Arch = "amd64".toList ∨ target.Arch = "x64".toList))
        ∨ (target.OS = "android".toList ∧ target.Arch = "arm".toList) := by
  have key : ∀ (c : Prop) [Decidable c] (e : InitError ε),
      (if c then some e else none) = none ↔ ¬ c := by
    intro c _ e
    split_ifs with hc <;> simp [hc]
  rw [initForTarget_fst Lookup dirname m root target spec hl, key]
  simp only [ne_eq, platform_eq_linux_x64_iff, platform_eq_android_arm_iff]
  by_cases ha : target.Arch = "amd64".toList
  · have hne : ¬ ("x64".toList = "arm".toList) := by decide
    have hne2 : ¬ ("amd64".toList = "arm".toList) := by decide
    rw [if_pos ha, ha]
    tauto
  · rw [if_neg ha]
    tauto

/-- C10: a target with operating system `linux` and architecture `x64` is
neither amd64-linux nor arm-android, and yet `initForTarget` returns no error
for it whenever the version looks up, setting the platform to `linux-x64`. -/
theorem initForTarget_accepts_x64_linux {ε : Type} (Lookup : GoString → Except ε versionSpec)
    (dirname : Target → GoString) (m : Manager) (root : RelativePath) (version : GoString)
    (spec : versionSpec) (hl : Lookup version = Except.ok spec) :
    ("linux".toList, "x64".toList) ≠ ("linux".toList, "amd64".toList) ∧
      ("linux".toList, "x64".toList) ≠ ("android".toList, "arm".toList) ∧
      (initForTarget Lookup dirname m root ⟨"x64".toList, "linux".toList, version⟩).1 = none ∧
      (initForTarget Lookup dirname m root ⟨"x64".toList, "linux".toList, version⟩).2.platform
        = "linux-x64".toList := by
  refine ⟨by decide, by decide, ?_, ?_⟩
  · exact (initForTarget_none_iff Lookup dirname m root ⟨"x64".toList, "linux".toList, version⟩
      spec hl).mpr (Or.inl ⟨rfl, Or.inr rfl⟩)
  · unfold initForTarget
    simp only [hl]
    rfl

theorem initForTarget_accepts_x64_linux_witness :
    lookupRegistered "1".toList = Except.ok versionSpec1 ∧
      (initForTarget lookupRegistered archUnderscoreOS zeroManager []
        ⟨"x64".toList, "linux".toList, "1".toList⟩).1 = none :=
  ⟨rfl,
    (initForTarget_accepts_x64_linux lookupRegistered archUnderscoreOS zeroManager []
      "1".toList versionSpec1 rfl).2.2.1⟩

/-! ## Properties of the playground and VDL tests -/

theorem vanadiumPlaygroundSubtest_eq {ε σ : Type} [DecidableEq ε] (run : PlaygroundRun ε σ)
    (testName caseName casePath caseTarget : GoString) (w : σ) :
    (vanadiumPlaygroundSubtest run testName caseName casePath caseTarget w).1
      = match (run.Chdir casePath w).1 with
        | some err => (none, some (TestError.plain err))
        | none =>
          match (run.TimedCommand defaultPlaygroundTestTimeout "make".toList [caseTarget]
              (run.Chdir casePath w).2).1 with
          | some err =>
            if err = run.CommandTimedOutErr then
              (some ⟨TestStatus.TestTimedOut, defaultPlaygroundTestTimeout⟩, none)
            else (none, some (TestError.internalTestError err ("Make ".toList ++ caseTarget)))
          | none => (none, none) := by
  unfold vanadiumPlaygroundSubtest
  rcases h1 : run.Chdir casePath w with ⟨_ | e1, w1⟩
  · simp only
    rcases h2 : run.TimedCommand defaultPlaygroundTestTimeout "make".toList [caseTarget] w1
      with ⟨_ | e2, w2⟩
    · simp
    · simp only
      split_ifs <;> rfl
  · simp

/-- C11: `vanadiumPlaygroundSubtest` returns `(nil, nil)` exactly when both the
change to the case directory and the make command succeed; when make fails with
the time-out error it returns a result with status `TestTimedOut` and a time-out
value of 5 minutes, and a nil error; on every other failure it returns a nil
result and a non-nil error. -/
theorem vanadiumPlaygroundSubtest_spec {ε σ : Type} [DecidableEq ε] (run : PlaygroundRun ε σ)
    (testName caseName casePath caseTarget : GoString) (w : σ) :
    ((vanadiumPlaygroundSubtest run testName caseName casePath caseTarget w).1 = (none, none) ↔
      (run.Chdir casePath w).1 = none ∧
        (run.TimedCommand defaultPlaygroundTestTimeout "make".toList [caseTarget]
          (run.Chdir casePath w).2).1 = none) ∧
    ((run.Chdir casePath w).1 = none →
      (run.TimedCommand defaultPlaygroundTestTimeout "make".toList [caseTarget]
          (run.Chdir casePath w).2).1 = some run.CommandTimedOutErr →
      (vanadiumPlaygroundSubtest run testName caseName casePath caseTarget w).1
        = (some ⟨TestStatus.TestTimedOut, 5 * 60 * 1000000000⟩, none)) ∧
    ((run.Chdir casePath w).1 ≠ none ∨
        ((run.TimedCommand defaultPlaygroundTestTimeout "make".toList [caseTarget]
            (run.Chdir casePath w).2).1 ≠ none ∧
          (run.TimedCommand defaultPlaygroundTestTimeout "make".toList [caseTarget]
            (run.Chdir casePath w).2).1 ≠ some run.CommandTimedOutErr) →
      (vanadiumPlaygroundSubtest run testName caseName casePath caseTarget w).1.1 = none ∧
        (vanadiumPlaygroundSubtest run testName caseName casePath caseTarget w).1.2 ≠ none) := by
  rw [vanadiumPlaygroundSubtest_eq]
  cases h1 : (run.Chdir casePath w).1 with
  | some e1 => simp
  | none =>
    cases h2 : (run.TimedCommand defaultPlaygroundTestTimeout "make".toList [caseTarget]
        (run.Chdir casePath w).2).1 with
    | none => simp
    | some e2 =>
      by_cases he : e2 = run.CommandTimedOutErr
      · simp [he, defaultPlaygroundTestTimeout, Minute]
      · simp [he]

theorem vanadiumPlaygroundSubtest_spec_witness :
    (vanadiumPlaygroundSubtest samplePlaygroundRun "t".toList "c".toList "/p".toList
        "slow".toList 0).1 = (some ⟨TestStatus.TestTimedOut, 300000000000⟩, none) ∧
      ((vanadiumPlaygroundSubtest samplePlaygroundRun "t".toList "c".toList "/p".toList
        "bad".toList 0).1.1 = none ∧
      (vanadiumPlaygroundSubtest samplePlaygroundRun "t".toList "c".toList "/p".toList
        "bad".toList 0).1.2 ≠ none) :=
  ⟨(vanadiumPlaygroundSubtest_spec samplePlaygroundRun "t".toList "c".toList "/p".toList
      "slow".toList 0).2.1 (by decide) (by decide),
    (vanadiumPlaygroundSubtest_spec samplePlaygroundRun "t".toList "c".toList "/p".toList
      "bad".toList 0).2.2 (Or.inr ⟨by decide, by decide⟩)⟩

/-- C12: once the vdl tool is installed and the environment resolved, `veyronVDL`
returns status `TestFailed` exactly when the audit command returned an error or
its output is non-empty after trimming, and `TestPassed` otherwise; the returned
error is nil in both cases. -/
theorem veyronVDL_spec {ε σ : Type} (t : VDLTools ε σ) (testName : GoString) (w w1 w2 w3 w4 : σ)
    (root out0 out : GoString) (venv : GoString → GoString) (err : Option ε)
    (hroot : t.VeyronRoot w = (Except.ok root, w1))
    (hinstall : t.CommandWithOpts
      [("GOPATH".toList, t.Join [root, "veyron".toList, "go".toList])] "go".toList
      ["install".toList, "veyron.io/veyron/veyron2/vdl/vdl".toList] w1 = ((none, out0), w2))
    (henv : t.VeyronEnvironment w2 = (Except.ok venv, w3))
    (haudit : t.CommandWithOpts [("VDLPATH".toList, venv "VDLPATH".toList)]
      (t.Join [root, "veyron".toList, "go".toList, "bin".toList, "vdl".toList])
      ["audit".toList, "--lang=go".toList, "all".toList] w3 = ((err, out), w4)) :
    ((veyronVDL t testName w).1.1 = some ⟨TestStatus.TestFailed, 0⟩ ↔
        err ≠ none ∨ TrimSpace out ≠ []) ∧
      ((veyronVDL t testName w).1.1 = some ⟨TestStatus.TestPassed, 0⟩ ↔
        ¬ (err ≠ none ∨ TrimSpace out ≠ [])) ∧
      (veyronVDL t testName w).1.2 = none := by
  unfold veyronVDL
  simp only [hroot, hinstall, henv, haudit]
  cases err with
  | some e => simp
  | none =>
    cases hout : TrimSpace out with
    | nil => simp
    | cons c cs => simp

theorem veyronVDL_spec_witness :
    (veyronVDL (sampleVDLTools false " stale.vdl\n".toList) "vdl".toList []).1.1
        = some ⟨TestStatus.TestFailed, 0⟩ ∧
      (veyronVDL (sampleVDLTools false " \n".toList) "vdl".toList []).1.1
        = some ⟨TestStatus.TestPassed, 0⟩ :=
  ⟨((veyronVDL_spec (sampleVDLTools false " stale.vdl\n".toList) "vdl".toList [] [] [] [] []
      "/root".toList [] " stale.vdl\n".toList (fun _ => "/vdl".toList) none rfl rfl rfl rfl).1).mpr
      (Or.inr (by decide)),
    ((veyronVDL_spec (sampleVDLTools false " \n".toList) "vdl".toList [] [] [] [] []
      "/root".toList [] " \n".toList (fun _ => "/vdl".toList) none rfl rfl rfl rfl).2.1).mpr
      (by decide)⟩

/-! ## Properties of the `v23 test` commands -/

theorem returnExitCode_eq_none_iff {ε : Type} (results : TestResults) :
    (returnExitCode results : Option (TestCmdError ε)) = none ↔
      ∀ entry ∈ results, entry.2.Status = TestStatus.TestPassed := by
  induction results with
  | nil => simp [returnExitCode]
  | cons entry rest ih =>
    obtain ⟨name, result⟩ := entry
    unfold returnExitCode
    by_cases h : result.Status = TestStatus.TestPassed
    · rw [if_neg (not_not.mpr h), ih]
      constructor
      · intro hall entry hmem
        rcases List.mem_cons.mp hmem with heq | hin
        · rw [heq]
          exact h
        · exact hall entry hin
      · intro hall entry hmem
        exact hall entry (List.mem_cons_of_mem _ hmem)
    · rw [if_pos h]
      constructor
      · intro hsome
        cases hsome
      · intro hall
        exact absurd (hall (name, result) (List.mem_cons_self _ _)) h

theorem returnExitCode_cases {ε : Type} (results : TestResults) :
    (returnExitCode results : Option (TestCmdError ε)) = none ∨
      (returnExitCode results : Option (TestCmdError ε)) = some (TestCmdError.ErrExitCode 2) := by
  induction results with
  | nil => simp [returnExitCode]
  | cons entry rest ih =>
    obtain ⟨name, result⟩ := entry
    unfold returnExitCode
    by_cases h : result.Status = TestStatus.TestPassed
    · simpa [h] using ih
    · simp [h]

theorem runTestProject_projectRuns {Cmd Ctx ε σ : Type} (t : TestTools Cmd Ctx ε σ)
    (command : Cmd) (arg : GoString) (w : TestWorld σ) :
    (runTestProject t command [arg] w).projectRuns
      = [[if HasPrefix arg "http".toList = true then arg else t.VanadiumGitRepoHost ++ arg]] := by
  unfold runTestProject
  by_cases h : HasPrefix arg "http".toList = true
  · simp only [h, Bool.not_true, if_true]
    split <;> simp
  · simp only [h, Bool.not_eq_true] at h ⊢
    simp only [h, Bool.not_false, if_true]
    split <;> simp

/-- C13: `runTestProject` misses the resolution that the help text of
`cmdTestProject` promises for a basename.  It tells a URL from a basename by
`strings.HasPrefix(project, "http")` alone: the basename `http2.go` starts with
`http`, so it is handed to the test runner as it is and not behind the
repository host; and the full URL `git://host/p` does not start with `http`, so
it is put behind the repository host and not passed unchanged. -/
theorem runTestProject_basename_not_resolved :
    isBasename "http2.go".toList = true ∧ isFullURL "http2.go".toList = false ∧
      (runTestProject sampleTestTools () ["http2.go".toList] ⟨[], ()⟩).projectRuns
        = [["http2.go".toList]] ∧
      "http2.go".toList ≠ sampleTestTools.VanadiumGitRepoHost ++ "http2.go".toList ∧
      isFullURL "git://host/p".toList = true ∧
      (runTestProject sampleTestTools () ["git://host/p".toList] ⟨[], ()⟩).projectRuns
        = [["https://vanadium.googlesource.com/git://host/p".toList]] := by
  decide

/-- C14: `runTestRun` returns a usage error when given no test names and
`runTestProject` returns a usage error unless given exactly one argument;
otherwise, when the test runner returns no error, each returns nil exactly when
every result has status `TestPassed`, and `ErrExitCode(2)` when some result has
another status. -/
theorem runTest_exit_status {Cmd Ctx ε σ : Type} (t : TestTools Cmd Ctx ε σ) (command : Cmd)
    (args : List GoString) (w w1 : TestWorld σ) (results : TestResults) :
    ((runTestRun t command [] w).err
        = some (TestCmdError.usage "unexpected number of arguments") ∧
      (runTestRun t command [] w).testRuns = []) ∧
    (args.length ≠ 1 →
      (runTestProject t command args w).err
          = some (TestCmdError.usage "unexpected number of arguments") ∧
        (runTestProject t command args w).projectRuns = []) ∧
    (args ≠ [] → t.RunTests (t.NewContextFromCommand command) args w = (Except.ok results, w1) →
      ((runTestRun t command args w).err = none ↔
          ∀ entry ∈ results, entry.2.Status = TestStatus.TestPassed) ∧
        ((∃ entry ∈ results, entry.2.Status ≠ TestStatus.TestPassed) →
          (runTestRun t command args w).err = some (TestCmdError.ErrExitCode 2))) ∧
    (∀ arg : GoString, args = [arg] →
      t.RunProjectTests (t.NewContextFromCommand command)
          [if HasPrefix arg "http".toList = true then arg else t.VanadiumGitRepoHost ++ arg] w
        = (Except.ok results, w1) →
      ((runTestProject t command args w).err = none ↔
          ∀ entry ∈ results, entry.2.Status = TestStatus.TestPassed) ∧
        ((∃ entry ∈ results, entry.2.Status ≠ TestStatus.TestPassed) →
          (runTestProject t command args w).err = some (TestCmdError.ErrExitCode 2))) := by
  have hloop : ∀ rs : TestResults, (∃ entry ∈ rs, entry.2.Status ≠ TestStatus.TestPassed) →
      (returnExitCode rs : Option (TestCmdError ε)) = some (TestCmdError.ErrExitCode 2) := by
    intro rs hex
    rcases returnExitCode_cases (ε := ε) rs with h | h
    · rw [returnExitCode_eq_none_iff] at h
      obtain ⟨entry, hmem, hne⟩ := hex
      exact absurd (h entry hmem) hne
    · exact h
  refine ⟨?_, ?_, ?_, ?_⟩
  · simp [runTestRun]
  · intro hlen
    unfold runTestProject
    split
    · simp at hlen
    · simp
  · intro hne hrun
    have hlen : ¬ args.length = 0 := by
      intro h0
      exact hne (List.length_eq_zero.mp h0)
    have herr : (runTestRun t command args w).err = returnExitCode results := by
      simp [runTestRun, hlen, hrun]
    rw [herr]
    exact ⟨returnExitCode_eq_none_iff results, hloop results⟩
  · intro arg harg hrun
    subst harg
    have herr : (runTestProject t command [arg] w).err = returnExitCode results := by
      have hp : (if (!HasPrefix arg "http".toList) = true then t.VanadiumGitRepoHost ++ arg
          else arg)
          = (if HasPrefix arg "http".toList = true then arg else t.VanadiumGitRepoHost ++ arg) := by
        cases HasPrefix arg "http".toList <;> rfl
      unfold runTestProject
      simp only [hp, hrun]
    rw [herr]
    exact ⟨returnExitCode_eq_none_iff results, hloop results⟩

theorem runTest_exit_status_witness :
    (runTestProject sampleTestTools () [] ⟨[], ()⟩).err
        = some (TestCmdError.usage "unexpected number of arguments") ∧
      (runTestRun sampleTestTools () ["ignore-this".toList] ⟨[], ()⟩).err = none ∧
      (runTestRun sampleTestTools () ["ignore-this".toList, "bad".toList] ⟨[], ()⟩).err
        = some (TestCmdError.ErrExitCode 2) ∧
      (runTestProject sampleTestTools () ["https://test-project".toList] ⟨[], ()⟩).err = none :=
  ⟨((runTest_exit_status sampleTestTools () [] ⟨[], ()⟩ ⟨[], ()⟩ []).2.1 (by decide)).1,
    ((runTest_exit_status sampleTestTools () ["ignore-this".toList] ⟨[], ()⟩ ⟨[], ()⟩
      [("ignore-this".toList, ⟨TestStatus.TestPassed, 0⟩)]).2.2.1 (by decide) rfl).1.mpr
      (by decide),
    ((runTest_exit_status sampleTestTools () ["ignore-this".toList, "bad".toList] ⟨[], ()⟩
      ⟨[], ()⟩ [("ignore-this".toList, ⟨TestStatus.TestPassed, 0⟩),
        ("bad".toList, ⟨TestStatus.TestFailed, 0⟩)]).2.2.1 (by decide) rfl).2
      ⟨("bad".toList, ⟨TestStatus.TestFailed, 0⟩), by decide, by decide⟩,
    ((runTest_exit_status sampleTestTools () ["https://test-project".toList] ⟨[], ()⟩ ⟨[], ()⟩
      [("ignore-this".toList, ⟨TestStatus.TestPassed, 0⟩)]).2.2.2 _ rfl rfl).1.mpr
      (by decide)⟩

theorem printSummary_foldl {σ : Type} (statusString : TestStatus → GoString)
    (results : TestResults) (w : TestWorld σ) :
    results.foldl
        (fun w entry =>
          { w with stdout := w.stdout ++ (entry.1 ++ " ".toList ++ statusString entry.2.Status
              ++ "\n".toList) }) w
      = { w with stdout := w.stdout ++ results.flatMap fun entry =>
            entry.1 ++ " ".toList ++ statusString entry.2.Status ++ "\n".toList } := by
  induction results generalizing w with
  | nil => simp
  | cons entry rest ih =>
    rw [List.foldl_cons, ih]
    simp

/-- C15: `printSummary` appends to the standard output the line `SUMMARY:` and
then, for each entry of the result map in the order of the loop, the one line
`<name> <status>`, and nothing else; it changes nothing but the standard output.
For a map with a single entry the text written is `SUMMARY:\n<name> <status>\n`. -/
theorem printSummary_output {σ : Type} (statusString : TestStatus → GoString) :
    (∀ (results : TestResults) (w : TestWorld σ),
      (printSummary statusString results w).stdout
          = w.stdout ++ "SUMMARY:\n".toList ++ (results.map fun entry =>
              entry.1 ++ " ".toList ++ statusString entry.2.Status ++ "\n".toList).flatten ∧
        (printSummary statusString results w).ext = w.ext) ∧
    (∀ (name : GoString) (result : TestResult) (ext : σ),
      (printSummary statusString [(name, result)] ⟨[], ext⟩).stdout
        = "SUMMARY:\n".toList ++ name ++ " ".toList ++ statusString result.Status
            ++ "\n".toList) ∧
    (printSummary sampleTestTools.statusString
        [("ignore-this".toList, ⟨TestStatus.TestPassed, 0⟩)] ⟨[], ()⟩).stdout
      = "SUMMARY:\nignore-this PASSED\n".toList := by
  have hmain : ∀ (results : TestResults) (w : TestWorld σ),
      printSummary statusString results w
        = { w with stdout := w.stdout ++ "SUMMARY:\n".toList ++ (results.map fun entry =>
              entry.1 ++ " ".toList ++ statusString entry.2.Status ++ "\n".toList).flatten } := by
    intro results w
    unfold printSummary
    rw [printSummary_foldl, List.flatMap_def]
  refine ⟨fun results w => ?_, fun name result ext => ?_, by decide⟩
  · rw [hmain]
    exact ⟨rfl, rfl⟩
  · rw [hmain]
    simp

/-! ## Properties of the production services test -/

theorem getLast?_cons_getD {α : Type} (v d : α) (l : List α) :
    (v :: l).getLast?.getD d = l.getLast?.getD v := by
  cases l with
  | nil => simp
  | cons x xs =>
    rw [List.getLast?_cons_cons]
    cases h : (x :: xs).getLast? with
    | none => simp at h
    | some y => simp

theorem getServiceOpts_foldl (opts : List Opt) (b n : GoString) :
    opts.foldl
        (fun roots opt =>
          match opt with
          | Opt.BlessingsRootOpt v => (v, roots.2)
          | Opt.NamespaceRootOpt v => (roots.1, v)
          | Opt.otherOpt _ => roots)
        (b, n)
      = ((opts.filterMap blessingsRootValue).getLast?.getD b,
          (opts.filterMap namespaceRootValue).getLast?.getD n) := by
  induction opts generalizing b n with
  | nil => simp
  | cons opt rest ih =>
    rw [List.foldl_cons]
    cases opt with
    | BlessingsRootOpt v =>
      rw [ih]
      simp only [List.filterMap_cons, blessingsRootValue, namespaceRootValue]
      rw [getLast?_cons_getD]
    | NamespaceRootOpt v =>
      rw [ih]
      simp only [List.filterMap_cons, blessingsRootValue, namespaceRootValue]
      rw [getLast?_cons_getD]
    | otherOpt k =>
      rw [ih]
      simp only [List.filterMap_cons, blessingsRootValue, namespaceRootValue]

/-- C16: the blessing root that `getServiceOpts` returns is the value of the
last `BlessingsRootOpt` of the list, or `dev.v.io` when there is none, and the
namespace root is the value of the last `NamespaceRootOpt`, or
`/ns.dev.v.io:8101` when there is none; each depends on the options of its own
kind only, and a list without either kind gives both defaults. -/
theorem getServiceOpts_spec (opts : List Opt) :
    getServiceOpts opts
        = ((opts.filterMap blessingsRootValue).getLast?.getD "dev.v.io".toList,
            (opts.filterMap namespaceRootValue).getLast?.getD "/ns.dev.v.io:8101".toList) ∧
      ((∀ opt ∈ opts, blessingsRootValue opt = none ∧ namespaceRootValue opt = none) →
        getServiceOpts opts = ("dev.v.io".toList, "/ns.dev.v.io:8101".toList)) := by
  have heq := getServiceOpts_foldl opts "dev.v.io".toList "/ns.dev.v.io:8101".toList
  refine ⟨heq, fun hother => ?_⟩
  have hb : opts.filterMap blessingsRootValue = [] := by
    rw [List.filterMap_eq_nil_iff]
    intro opt hmem
    exact (hother opt hmem).1
  have hn : opts.filterMap namespaceRootValue = [] := by
    rw [List.filterMap_eq_nil_iff]
    intro opt hmem
    exact (hother opt hmem).2
  unfold getServiceOpts
  rw [heq, hb, hn]
  rfl

theorem getServiceOpts_spec_witness :
    getServiceOpts [Opt.otherOpt 0, Opt.otherOpt 3]
        = ("dev.v.io".toList, "/ns.dev.v.io:8101".toList) ∧
      getServiceOpts [Opt.BlessingsRootOpt "a".toList, Opt.otherOpt 1,
          Opt.NamespaceRootOpt "/n".toList, Opt.BlessingsRootOpt "b".toList]
        = ("b".toList, "/n".toList) :=
  ⟨(getServiceOpts_spec [Opt.otherOpt 0, Opt.otherOpt 3]).2 (by decide),
    by decide⟩

/-- C19: the suite that `generateXUnitTestSuite` returns has `Name = pkg`,
`Tests = 1` and exactly one test case, with `Classname = pkg` and name `Test`;
`Failures` is 1 and the case carries exactly the given failure when one is
given, and `Failures` is 0 and the case carries no failure otherwise, so that
`Failures` never exceeds `Tests`. -/
theorem generateXUnitTestSuite_spec {ε σ : Type} (t : ProdTools ε σ) (failure : Option Failure)
    (pkg : GoString) (duration : Duration) (w : σ) :
    (generateXUnitTestSuite t failure pkg duration w).1.Name = pkg ∧
      (generateXUnitTestSuite t failure pkg duration w).1.Tests = 1 ∧
      (generateXUnitTestSuite t failure pkg duration w).1.Cases
        = [{ Classname := pkg, Name := "Test".toList, Time := t.formatSeconds duration
             Failures := failure.toList }] ∧
      (generateXUnitTestSuite t failure pkg duration w).1.Failures
        = (if failure.isSome then 1 else 0) ∧
      (generateXUnitTestSuite t failure pkg duration w).1.Failures
        ≤ (generateXUnitTestSuite t failure pkg duration w).1.Tests := by
  cases failure with
  | none => simp [generateXUnitTestSuite]
  | some f => simp [generateXUnitTestSuite]

theorem returnStatus_failed_iff (suites : List TestSuite) :
    returnStatus suites = { Status := Status.Failed } ↔ ∃ suite ∈ suites, suite.Failures > 0 := by
  induction suites with
  | nil => simp [returnStatus]
  | cons suite rest ih =>
    unfold returnStatus
    by_cases h : suite.Failures > 0
    · simp [h]
    · simp [h, ih]

theorem returnStatus_cases (suites : List TestSuite) :
    returnStatus suites = { Status := Status.Failed } ∨
      returnStatus suites = { Status := Status.Passed } := by
  induction suites with
  | nil => simp [returnStatus]
  | cons suite rest ih =>
    unfold returnStatus
    by_cases h : suite.Failures > 0
    · simp [h]
    · simpa [h] using ih

theorem returnStatus_passed_iff (suites : List TestSuite) :
    returnStatus suites = { Status := Status.Passed } ↔ ¬ ∃ suite ∈ suites, suite.Failures > 0 := by
  rw [← returnStatus_failed_iff]
  rcases returnStatus_cases suites with h | h
  · rw [h]
    simp
  · rw [h]
    simp

theorem generateXUnitTestSuite_failures {ε σ : Type} (t : ProdTools ε σ)
    (failure : Option Failure) (pkg : GoString) (duration : Duration) (w : σ) :
    (generateXUnitTestSuite t failure pkg duration w).1.Failures = 0 ∨
      (generateXUnitTestSuite t failure pkg duration w).1.Failures = 1 := by
  cases failure with
  | none => simp [generateXUnitTestSuite]
  | some f => simp [generateXUnitTestSuite]

theorem testProdServices_length {ε σ : Type} (t : ProdTools ε σ) (vroot principalDir : GoString)
    (services : List prodService) (suites : List TestSuite) (w : σ) :
    (testProdServices t vroot principalDir services suites w).1.length
      = suites.length + services.length := by
  induction services generalizing suites w with
  | nil => simp [testProdServices]
  | cons service rest ih =>
    unfold testProdServices
    simp only [ih, List.length_append, List.length_cons, List.length_nil]
    omega

/-- What the body of `vanadiumProdServicesTest` leaves behind once the report
was created without error. -/
theorem prodServicesTestBody_report {ε σ : Type} (t : ProdTools ε σ) (testName : GoString)
    (opts : List Opt) (vroot tmpdir : GoString) (w : σ) (suites : List TestSuite)
    (hreport : (prodServicesTestBody t testName opts vroot tmpdir w).report = some suites)
    (hok : (prodServicesTestBody t testName opts vroot tmpdir w).reportErr = none) :
    (prodServicesTestBody t testName opts vroot tmpdir w).result = some (returnStatus suites) ∧
      ∃ identity : TestSuite,
        (prodServicesTestBody t testName opts vroot tmpdir w).identitySuite = some identity ∧
          suites.head? = some identity ∧
          (identity.Failures = 0 ∨ identity.Failures = 1) ∧
          (identity.Failures ≠ 0 →
            suites = [identity] ∧
              (prodServicesTestBody t testName opts vroot tmpdir w).servicesTested = []) ∧
          (identity.Failures = 0 →
            suites.length = 8 ∧
              (prodServicesTestBody t testName opts vroot tmpdir w).servicesTested
                = (prodServices (getServiceOpts opts).2).map fun s => s.name) := by
  have hid := generateXUnitTestSuite_failures t
    (match (t.fetchBlessingRoot ("https://".toList ++ (getServiceOpts opts).1
        ++ "/auth/blessing-root".toList) w).1.err with
      | some err => some { Message := "identityd HTTP".toList, Data := t.errorText err }
      | none => none)
    ("https://".toList ++ (getServiceOpts opts).1 ++ "/auth/blessing-root".toList)
    (t.Now (t.fetchBlessingRoot ("https://".toList ++ (getServiceOpts opts).1
        ++ "/auth/blessing-root".toList) w).2
      - (t.fetchBlessingRoot ("https://".toList ++ (getServiceOpts opts).1
        ++ "/auth/blessing-root".toList) w).1.start)
    (t.fetchBlessingRoot ("https://".toList ++ (getServiceOpts opts).1
        ++ "/auth/blessing-root".toList) w).2
  unfold prodServicesTestBody at hreport hok ⊢
  simp only [testIdentityProviderHTTP] at hreport hok ⊢
  split_ifs at hreport hok ⊢ with hfail
  · split at hreport
    · simp [returnError] at hreport
    · rename_i principalDir w1 hsetup
      simp only [hsetup] at hok ⊢
      split at hreport
      · rename_i err w2 hcreate
        simp only [hcreate] at hok
        simp at hok
      · rename_i w2 hcreate
        simp only [hcreate]
        simp only [Option.some.injEq] at hreport
        subst hreport
        refine ⟨rfl, _, rfl, by simp, hid, fun hne => absurd hfail hne, fun _ => ?_⟩
        simp [testAllProdServices, testProdServices_length, prodServices]
  · split at hreport
    · rename_i err w2 hcreate
      simp only [hcreate] at hok
      simp at hok
    · rename_i w2 hcreate
      simp only [hcreate]
      simp only [Option.some.injEq] at hreport
      subst hreport
      exact ⟨rfl, _, rfl, by simp, hid, fun _ => by simp, fun h0 => absurd h0 hfail⟩

theorem vanadiumProdServicesTest_cases {ε σ : Type} (t : ProdTools ε σ) (testName : GoString)
    (opts : List Opt) (w : σ) :
    (vanadiumProdServicesTest t testName opts w).report = none ∨
      ∃ (vroot tmpdir : GoString) (w1 : σ),
        (vanadiumProdServicesTest t testName opts w).result
            = (prodServicesTestBody t testName opts vroot tmpdir w1).result ∧
          (vanadiumProdServicesTest t testName opts w).identitySuite
            = (prodServicesTestBody t testName opts vroot tmpdir w1).identitySuite ∧
          (vanadiumProdServicesTest t testName opts w).servicesTested
            = (prodServicesTestBody t testName opts vroot tmpdir w1).servicesTested ∧
          (vanadiumProdServicesTest t testName opts w).report
            = (prodServicesTestBody t testName opts vroot tmpdir w1).report ∧
          (vanadiumProdServicesTest t testName opts w).reportErr
            = (prodServicesTestBody t testName opts vroot tmpdir w1).reportErr := by
  unfold vanadiumProdServicesTest
  split
  · left; rfl
  · split
    · left; rfl
    · split
      · left; rfl
      · split
        · left; rfl
        · split
          · left; rfl
          · right
            exact ⟨_, _, _, rfl, rfl, rfl, rfl, rfl⟩

/-- C20: when `vanadiumProdServicesTest` gets as far as the xUnit report and the
report is created without error, it returns status `Failed` exactly when some
suite of the report has `Failures > 0`, and `Passed` otherwise; the first suite
of the report is the one of the identity provider, and when that suite has a
failure no production service is tested, the report holds that suite alone and
the status is `Failed`, whereas without a failure the seven production services
are tested and the report holds eight suites. -/
theorem vanadiumProdServicesTest_status {ε σ : Type} (t : ProdTools ε σ) (testName : GoString)
    (opts : List Opt) (w : σ) (suites : List TestSuite)
    (hreport : (vanadiumProdServicesTest t testName opts w).report = some suites)
    (hok : (vanadiumProdServicesTest t testName opts w).reportErr = none) :
    ((vanadiumProdServicesTest t testName opts w).result = some { Status := Status.Failed } ↔
        ∃ suite ∈ suites, suite.Failures > 0) ∧
      ((vanadiumProdServicesTest t testName opts w).result = some { Status := Status.Passed } ↔
        ¬ ∃ suite ∈ suites, suite.Failures > 0) ∧
      ∃ identity : TestSuite,
        (vanadiumProdServicesTest t testName opts w).identitySuite = some identity ∧
          suites.head? = some identity ∧
          (identity.Failures > 0 →
            suites = [identity] ∧
              (vanadiumProdServicesTest t testName opts w).servicesTested = [] ∧
              (vanadiumProdServicesTest t testName opts w).result
                = some { Status := Status.Failed }) ∧
          (identity.Failures = 0 →
            suites.length = 8 ∧
              (vanadiumProdServicesTest t testName opts w).servicesTested.length = 7) := by
  rcases vanadiumProdServicesTest_cases t testName opts w with hnone | ⟨vroot, tmpdir, w1, h⟩
  · rw [hnone] at hreport
    cases hreport
  · obtain ⟨hres, hid, htested, hrep, herr⟩ := h
    rw [hrep] at hreport
    rw [herr] at hok
    obtain ⟨hresult, identity, hidentity, hhead, h01, hfailed, hpassed⟩ :=
      prodServicesTestBody_report t testName opts vroot tmpdir w1 suites hreport hok
    rw [hres, hid, htested, hresult, hidentity]
    refine ⟨?_, ?_, identity, rfl, hhead, ?_, ?_⟩
    · rw [Option.some.injEq, returnStatus_failed_iff]
    · rw [Option.some.injEq, returnStatus_passed_iff]
    · intro hpos
      have hne : identity.Failures ≠ 0 := by omega
      obtain ⟨hsuites, hnot⟩ := hfailed hne
      refine ⟨hsuites, hnot, ?_⟩
      rw [Option.some.injEq, returnStatus_failed_iff, hsuites]
      exact ⟨identity, by simp, hpos⟩
    · intro hzero
      obtain ⟨hlen, hservices⟩ := hpassed hzero
      refine ⟨hlen, ?_⟩
      rw [hservices]
      simp [prodServices]

theorem vanadiumProdServicesTest_status_witness :
    (vanadiumProdServicesTest (sampleProdTools false) "prod".toList
          [Opt.BlessingsRootOpt "down".toList] []).result = some { Status := Status.Failed } ∧
      (vanadiumProdServicesTest (sampleProdTools false) "prod".toList
          [Opt.BlessingsRootOpt "down".toList] []).world = [] ∧
      (vanadiumProdServicesTest (sampleProdTools false) "prod".toList
          [Opt.NamespaceRootOpt "/ns".toList] []).result = some { Status := Status.Passed } ∧
      (vanadiumProdServicesTest (sampleProdTools true) "prod".toList
          [Opt.NamespaceRootOpt "/ns".toList] []).result = some { Status := Status.Failed } := by
  refine ⟨?_, by decide, ?_, ?_⟩
  · exact ((vanadiumProdServicesTest_status (sampleProdTools false) "prod".toList
      [Opt.BlessingsRootOpt "down".toList] [] _ rfl rfl).1).mpr
      ⟨_, List.mem_cons_self _ _, by decide⟩
  · exact ((vanadiumProdServicesTest_status (sampleProdTools false) "prod".toList
      [Opt.NamespaceRootOpt "/ns".toList] [] _ rfl rfl).2.1).mpr (by decide)
  · exact ((vanadiumProdServicesTest_status (sampleProdTools true) "prod".toList
      [Opt.NamespaceRootOpt "/ns".toList] [] _ rfl rfl).1).mpr (by decide)

/-! ## The two generations of the tool -/

theorem logcop_splitLoop_eq (l result : List GoString) :
    logcop.splitLoop l result = l.foldl splitStep result := by
  induction l generalizing result with
  | nil => rfl
  | cons v rest ih =>
    rw [List.foldl_cons]
    by_cases h : (TrimSpace v).length > 0
    · have h1 : logcop.splitLoop (v :: rest) result
          = logcop.splitLoop rest (result ++ [TrimSpace v]) := by
        simp [logcop.splitLoop, h]
      have h2 : splitStep result v = result ++ [TrimSpace v] := by
        simp [splitStep, h]
      rw [h1, h2, ih]
    · have h1 : logcop.splitLoop (v :: rest) result = logcop.splitLoop rest result := by
        simp [logcop.splitLoop, h]
      have h2 : splitStep result v = result := by
        simp [splitStep, h]
      rw [h1, h2, ih]

/-- C18: the two generations split the `--interface` flag alike: for every
string the `splitCommaSeparatedValues` of `logcop` and the one of `gologcop`
return the same list, and, whatever the collaborators, the flags, the arguments
and the worlds, the `runCheck` of `logcop` returns a given usage error exactly
when the `runCheck` of `gologcop` returns it. -/
theorem logcop_gologcop_split_agree :
    (∀ s : GoString, logcop.splitCommaSeparatedValues s = splitCommaSeparatedValues s) ∧
      (∀ (Env1 Ctx1 ε1 σ1 Env2 Ctx2 ε2 σ2 : Type) (t1 : logcop.Tools Env1 Ctx1 ε1 σ1)
        (t2 : Tools Env2 Ctx2 ε2 σ2) (colorFlag dryRunFlag verboseFlag : Bool)
        (interfacesFlag : GoString) (env1 : Env1) (env2 : Env2) (args : List GoString)
        (w1 : σ1) (w2 : σ2) (msg : String),
        (logcop.runCheck t1 colorFlag dryRunFlag verboseFlag interfacesFlag env1 args w1).err
            = some (CmdError.usage msg) ↔
          (runCheck t2 interfacesFlag env2 args w2).err = some (CmdError.usage msg)) := by
  have hsplit : ∀ s : GoString,
      logcop.splitCommaSeparatedValues s = splitCommaSeparatedValues s := by
    intro s
    unfold logcop.splitCommaSeparatedValues splitCommaSeparatedValues
    exact logcop_splitLoop_eq _ _
  refine ⟨hsplit, ?_⟩
  intro Env1 Ctx1 ε1 σ1 Env2 Ctx2 ε2 σ2 t1 t2 colorFlag dryRunFlag verboseFlag interfacesFlag
    env1 env2 args w1 w2 msg
  unfold logcop.runCheck runCheck
  simp only [hsplit, returnUsageErrorf, returnRunInjector]
  split_ifs
  · simp
  · simp
  · cases (t1.runInjector _ _ _ _ _).1 <;> cases (t2.runInjector _ _ _ _ _).1 <;> simp

/-! ## Properties of the mojo profile -/

/-- C23: for all platform, name and revision strings the URL builders return the
storage bucket `https://storage.googleapis.com/mojo` followed by
`/services/<platform>/<revision>/<name>`, by `/shell/<revision>/<platform>.zip`,
by `/network_service/<revision>/<platform>/network_service.mojo.zip` and by
`/system_thunks/<platform>/<revision>/libsystem_thunks.a`. -/
theorem mojo_urls (platform name revision : GoString) :
    mojoServiceUrl platform name revision
        = "https://storage.googleapis.com/mojo".toList ++ "/services/".toList ++ platform
            ++ "/".toList ++ revision ++ "/".toList ++ name ∧
      mojoShellUrl platform revision
        = "https://storage.googleapis.com/mojo".toList ++ "/shell/".toList ++ revision
            ++ "/".toList ++ platform ++ ".zip".toList ∧
      mojoNetworkServiceUrl platform revision
        = "https://storage.googleapis.com/mojo".toList ++ "/network_service/".toList ++ revision
            ++ "/".toList ++ platform ++ "/network_service.mojo.zip".toList ∧
      mojoSystemThunksUrl platform revision
        = "https://storage.googleapis.com/mojo".toList ++ "/system_thunks/".toList ++ platform
            ++ "/".toList ++ revision ++ "/libsystem_thunks.a".toList := by
  refine ⟨?_, ?_, ?_, ?_⟩
  · simp [mojoServiceUrl, mojoStorageBucket, Sprintf, sprintfScan]
  · simp [mojoShellUrl, mojoStorageBucket, Sprintf, sprintfScan]
  · simp [mojoNetworkServiceUrl, mojoStorageBucket, Sprintf, sprintfScan]
  · simp [mojoSystemThunksUrl, mojoStorageBucket, Sprintf, sprintfScan]

/-! ## Splitting the output of the split -/

theorem TrimSpace_idempotent (v : GoString) : TrimSpace (TrimSpace v) = TrimSpace v := by
  have hleft : TrimLeftSpace (TrimSpace v) = TrimSpace v := by
    unfold TrimLeftSpace
    cases h : TrimSpace v with
    | nil => rfl
    | cons c cs =>
      have hc := TrimSpace_head v c (by rw [h]; rfl)
      rw [List.dropWhile_cons_of_neg (by simp [hc])]
  have hright : TrimRightSpace (TrimSpace v) = TrimSpace v := by
    rw [TrimSpace_eq]
    exact List.rdropWhile_idempotent isSpace _
  show TrimRightSpace (TrimLeftSpace (TrimSpace v)) = TrimSpace v
  rw [hleft, hright]

theorem Split_Join_comma (l : List GoString) (hne : l ≠ []) (hcomma : ∀ x ∈ l, ',' ∉ x) :
    Split (Join l ",".toList) ',' = l := by
  rw [Split_eq_splitOn]
  exact List.splitOn_intercalate _ ',' hcomma hne

theorem mem_splitCommaSeparatedValues (s x : GoString)
    (hx : x ∈ splitCommaSeparatedValues s) :
    x ≠ [] ∧ ∃ v ∈ Split s ',', x = TrimSpace v := by
  rw [splitCommaSeparatedValues_eq, List.mem_filter, List.mem_map] at hx
  obtain ⟨⟨v, hv, rfl⟩, hne⟩ := hx
  refine ⟨?_, v, hv, rfl⟩
  intro e
  simp [e] at hne

/-- C24: splitting is stable on its own output: for every string `s`,
`splitCommaSeparatedValues(strings.Join(splitCommaSeparatedValues(s), ","))` is
`splitCommaSeparatedValues(s)`. -/
theorem splitCommaSeparatedValues_stable (s : GoString) :
    splitCommaSeparatedValues (Join (splitCommaSeparatedValues s) ",".toList)
      = splitCommaSeparatedValues s := by
  by_cases hne : splitCommaSeparatedValues s = []
  · rw [hne]
    decide
  · have hcomma : ∀ x ∈ splitCommaSeparatedValues s, ',' ∉ x := by
      intro x hx hc
      obtain ⟨_, v, hv, rfl⟩ := mem_splitCommaSeparatedValues s x hx
      exact not_mem_of_mem_Split ',' s v hv ((TrimSpace_sublist v).subset hc)
    rw [splitCommaSeparatedValues_eq (Join (splitCommaSeparatedValues s) ",".toList),
      Split_Join_comma _ hne hcomma]
    have htrim : (splitCommaSeparatedValues s).map TrimSpace = splitCommaSeparatedValues s := by
      conv_rhs => rw [← List.map_id (splitCommaSeparatedValues s)]
      apply List.map_congr_left
      intro x hx
      obtain ⟨_, v, _, rfl⟩ := mem_splitCommaSeparatedValues s x hx
      exact TrimSpace_idempotent v
    rw [htrim, List.filter_eq_self]
    intro x hx
    have := (mem_splitCommaSeparatedValues s x hx).1
    cases x with
    | nil => exact absurd rfl this
    | cons c cs => rfl

/-- C21: after a successful `initForTarget` the platform is `OS + "-" + Arch`
with the architecture `amd64` rewritten to `x64`, it is `linux-x64` or
`android-arm`, and the build version, under which the shell and the system
thunks directories are named, is the `buildVersionAndroid` of the spec that was
looked up when the platform is `android-arm` and its `buildVersionLinux`
otherwise. -/
theorem initForTarget_platform_buildVersion {ε : Type}
    (Lookup : GoString → Except ε versionSpec) (dirname : Target → GoString) (m : Manager)
    (root : RelativePath) (target : Target) (spec : versionSpec)
    (hl : Lookup target.Version = Except.ok spec)
    (hok : (initForTarget Lookup dirname m root target).1 = none) :
    (initForTarget Lookup dirname m root target).2.platform
        = target.OS ++ "-".toList
            ++ (if target.Arch = "amd64".toList then "x64".toList else target.Arch) ∧
      ((initForTarget Lookup dirname m root target).2.platform = "linux-x64".toList ∨
        (initForTarget Lookup dirname m root target).2.platform = "android-arm".toList) ∧
      (initForTarget Lookup dirname m root target).2.spec = spec ∧
      (initForTarget Lookup dirname m root target).2.buildVersion
        = (if (initForTarget Lookup dirname m root target).2.platform = "android-arm".toList
            then spec.buildVersionAndroid else spec.buildVersionLinux) ∧
      (initForTarget Lookup dirname m root target).2.shellDir
        = (initForTarget Lookup dirname m root target).2.mojoInstDir.Join
            ["mojo_shell".toList, (initForTarget Lookup dirname m root target).2.buildVersion] ∧
      (initForTarget Lookup dirname m root target).2.systemThunksDir
        = (initForTarget Lookup dirname m root target).2.mojoInstDir.Join
            ["system_thunks".toList, (initForTarget Lookup dirname m root target).2.buildVersion]
      := by
  unfold initForTarget at hok ⊢
  simp only [hl] at hok ⊢
  generalize (if target.Arch = "amd64".toList then "x64".toList else target.Arch) = mojoArch
    at hok ⊢
  by_cases hbad : target.OS ++ "-".toList ++ mojoArch ≠ "linux-x64".toList ∧
      target.OS ++ "-".toList ++ mojoArch ≠ "android-arm".toList
  · rw [if_pos hbad] at hok
    cases hok
  · rw [if_neg hbad]
    by_cases handroid : target.OS ++ "-".toList ++ mojoArch = "android-arm".toList
    · simp only [if_pos handroid, true_and, and_true]
      exact Or.inr handroid
    · simp only [if_neg handroid, true_and, and_true]
      refine Or.inl ?_
      by_contra hnot
      exact hbad ⟨hnot, handroid⟩

theorem initForTarget_platform_buildVersion_witness :
    (initForTarget lookupRegistered archUnderscoreOS zeroManager ["root".toList]
        ⟨"arm".toList, "android".toList, "1".toList⟩).2.platform = "android-arm".toList ∧
      (initForTarget lookupRegistered archUnderscoreOS zeroManager ["root".toList]
        ⟨"amd64".toList, "linux".toList, "1".toList⟩).2.platform = "linux-x64".toList ∧
      (initForTarget lookupRegistered archUnderscoreOS zeroManager ["root".toList]
        ⟨"amd64".toList, "linux".toList, "1".toList⟩).2.buildVersion
        = versionSpec1.buildVersionLinux :=
  ⟨(initForTarget_platform_buildVersion lookupRegistered archUnderscoreOS zeroManager
      ["root".toList] ⟨"arm".toList, "android".toList, "1".toList⟩ versionSpec1 rfl
      (by decide)).1,
    (initForTarget_platform_buildVersion lookupRegistered archUnderscoreOS zeroManager
      ["root".toList] ⟨"amd64".toList, "linux".toList, "1".toList⟩ versionSpec1 rfl
      (by decide)).1,
    (initForTarget_platform_buildVersion lookupRegistered archUnderscoreOS zeroManager
      ["root".toList] ⟨"amd64".toList, "linux".toList, "1".toList⟩ versionSpec1 rfl
      (by decide)).2.2.2.1⟩

theorem serviceFetchLoop_eq (join : List GoString → GoString) (m : Manager) (outDir : GoString)
    (names : List GoString) (seq : List ShellStep) :
    serviceFetchLoop join m outDir names seq
      = seq ++ names.map fun n =>
          ShellStep.step (SeqStep.Fetch (join [outDir, n])
            (mojoServiceUrl m.platform n m.buildVersion)) := by
  induction names generalizing seq with
  | nil => simp [serviceFetchLoop]
  | cons n rest ih =>
    unfold serviceFetchLoop
    simp only [ih, List.map_cons, List.append_assoc, List.singleton_append]

theorem runSteps_executed_prefix {ε σ α : Type} (run : α → σ → Option ε × σ) (steps : List α)
    (w : σ) : (runSteps run steps w).executed <+: steps := by
  induction steps generalizing w with
  | nil => simp [runSteps]
  | cons s rest ih =>
    unfold runSteps
    rcases h : run s w with ⟨_ | err, w1⟩
    · simp only
      exact (List.prefix_cons_inj s).mpr (ih w1)
    · simp only
      exact (List.prefix_cons_inj s).mpr (List.nil_prefix)

theorem runSteps_executed_all {ε σ α : Type} (run : α → σ → Option ε × σ) (steps : List α)
    (w : σ) (hok : (runSteps run steps w).err = none) :
    (runSteps run steps w).executed = steps := by
  induction steps generalizing w with
  | nil => simp [runSteps]
  | cons s rest ih =>
    unfold runSteps at hok ⊢
    rcases h : run s w with ⟨_ | err, w1⟩
    · simp only [h] at hok ⊢
      rw [ih w1 hok]
    · simp only [h] at hok
      cases hok

theorem mojoServiceUrl_ne_mojoShellUrl (p n r p2 r2 : GoString) :
    mojoServiceUrl p n r ≠ mojoShellUrl p2 r2 := by
  intro h
  simp [mojoServiceUrl, mojoShellUrl, mojoStorageBucket, Sprintf, sprintfScan] at h

theorem service_fetch_not_mem_mojoShellSteps (join : List GoString → GoString) (m : Manager)
    (tmpDir outDir dst n : GoString) :
    ShellStep.step (SeqStep.Fetch dst (mojoServiceUrl m.platform n m.buildVersion))
      ∉ mojoShellSteps join m tmpDir outDir := by
  intro hmem
  unfold mojoShellSteps at hmem
  by_cases hp : m.platform = "android-arm".toList
  · simp only [hp, if_true, List.foldl_cons, List.foldl_nil, List.mem_append, List.mem_cons,
      List.mem_singleton, List.not_mem_nil, or_false, ShellStep.step.injEq, SeqStep.Fetch.injEq,
      reduceCtorEq, false_or, or_self, and_false] at hmem
    exact mojoServiceUrl_ne_mojoShellUrl _ _ _ _ _ (hp ▸ hmem.2)
  · simp only [hp, if_false, List.foldl_cons, List.foldl_nil, List.mem_append, List.mem_cons,
      List.mem_singleton, List.not_mem_nil, or_false, ShellStep.step.injEq, SeqStep.Fetch.injEq,
      reduceCtorEq, false_or, or_self, and_false] at hmem
    exact mojoServiceUrl_ne_mojoShellUrl _ _ _ _ _ hmem.2

/-! ## The fetches of `installMojoShellAndServices` -/

theorem shellAndServicesSteps_eq (join : List GoString → GoString) (m : Manager)
    (tmpDir outDir : GoString) :
    shellAndServicesSteps join m tmpDir outDir
      = mojoShellSteps join m tmpDir outDir ++ (installedServiceNames m).map (fun n =>
          ShellStep.step (SeqStep.Fetch (join [outDir, n])
            (mojoServiceUrl m.platform n m.buildVersion))) := by
  unfold shellAndServicesSteps
  exact serviceFetchLoop_eq _ _ _ _ _

theorem mojoServiceUrl_eq (platform name revision : GoString) :
    mojoServiceUrl platform name revision
      = (mojoStorageBucket ++ "/services/".toList)
          ++ (platform ++ "/".toList ++ revision ++ "/".toList ++ name) := by
  simp [mojoServiceUrl, mojoStorageBucket, Sprintf, sprintfScan]

theorem mojoServiceUrl_injective (platform revision : GoString) :
    Function.Injective (fun name => mojoServiceUrl platform name revision) := by
  intro a b hab
  simp only [mojoServiceUrl_eq] at hab
  have h1 := List.append_cancel_left hab
  rw [List.append_assoc, List.append_assoc, List.append_assoc, List.append_assoc,
    List.append_assoc, List.append_assoc] at h1
  have h2 := List.append_cancel_left h1
  have h3 := List.append_cancel_left h2
  have h4 := List.append_cancel_left h3
  exact List.append_cancel_left h4

theorem serviceFetch_injective (join : List GoString → GoString) (m : Manager)
    (outDir : GoString) : Function.Injective (serviceFetch join m outDir) := by
  intro a b hab
  unfold serviceFetch at hab
  exact mojoServiceUrl_injective m.platform m.buildVersion (Prod.mk.inj hab).2

theorem serviceFetches_append (a b : List (GoString × GoString)) :
    serviceFetches (a ++ b) = serviceFetches a ++ serviceFetches b := by
  simp [serviceFetches, List.filter_append]

theorem HasPrefix_mojoServiceUrl (platform name revision : GoString) :
    HasPrefix (mojoServiceUrl platform name revision)
      (mojoStorageBucket ++ "/services/".toList) = true := by
  unfold HasPrefix
  rw [mojoServiceUrl_eq, List.isPrefixOf_iff_prefix]
  exact List.prefix_append _ _

theorem serviceFetches_service (dst platform name revision : GoString) :
    serviceFetches [(dst, mojoServiceUrl platform name revision)]
      = [(dst, mojoServiceUrl platform name revision)] := by
  simp only [serviceFetches, List.filter_cons, List.filter_nil, HasPrefix_mojoServiceUrl,
    if_true]

theorem serviceFetches_shell (dst platform revision : GoString) :
    serviceFetches [(dst, mojoShellUrl platform revision)] = [] := by
  simp [serviceFetches, HasPrefix, mojoShellUrl, mojoStorageBucket, Sprintf, sprintfScan]

theorem serviceFetches_networkService (dst platform revision : GoString) :
    serviceFetches [(dst, mojoNetworkServiceUrl platform revision)] = [] := by
  simp [serviceFetches, HasPrefix, mojoNetworkServiceUrl, mojoStorageBucket, Sprintf, sprintfScan]

theorem flatMap_isPrefix {α β : Type} (c : α → List β) (l1 l2 : List α) (h : l1 <+: l2) :
    l1.flatMap c <+: l2.flatMap c := by
  obtain ⟨rest, rfl⟩ := h
  rw [List.flatMap_append]
  exact List.prefix_append _ _

theorem runSteps_serviceFetches {ε σ α : Type} (run : α → σ → Option ε × σ)
    (fetched : σ → List (GoString × GoString)) (c : α → List (GoString × GoString))
    (hstep : ∀ s w, ∃ l, fetched (run s w).2 = fetched w ++ l ∧ serviceFetches l = c s)
    (steps : List α) (w : σ) :
    ∃ pre, fetched (runSteps run steps w).world = fetched w ++ pre ∧
      serviceFetches pre = (runSteps run steps w).executed.flatMap c := by
  induction steps generalizing w with
  | nil => exact ⟨[], by simp [runSteps], by simp [runSteps, serviceFetches]⟩
  | cons s rest ih =>
    obtain ⟨l, hl, hc⟩ := hstep s w
    unfold runSteps
    rcases h : run s w with ⟨_ | err, w1⟩
    · rw [h] at hl
      obtain ⟨pre, hpre, hfil⟩ := ih w1
      refine ⟨l ++ pre, ?_, ?_⟩
      · simp only
        rw [hpre, hl, List.append_assoc]
      · simp only [List.flatMap_cons]
        rw [serviceFetches_append, hc, hfil]
    · rw [h] at hl
      refine ⟨l, ?_, ?_⟩
      · simp only
        exact hl
      · simp only [List.flatMap_cons, List.flatMap_nil, List.append_nil]
        exact hc

theorem runSeqStep_fetched {ε σ : Type} (t : MojoTools ε σ)
    (fetched : σ → List (GoString × GoString)) (h : RecordsFetches t fetched) (s : SeqStep)
    (w : σ) : fetched (runSeqStep t s w).2 = fetched w ++ seqStepFetches s := by
  cases s <;> simp [runSeqStep, seqStepFetches, h.Fetch, h.MkdirAll, h.Unzip, h.Rename]

theorem installMojoNetworkService_fetched {ε σ : Type} (t : MojoTools ε σ) (m : Manager)
    (fetched : σ → List (GoString × GoString)) (h : RecordsFetches t fetched)
    (outDir : GoString) (w : σ) :
    ∃ l, fetched (installMojoNetworkService t m outDir w).2 = fetched w ++ l ∧
      serviceFetches l = [] := by
  unfold installMojoNetworkService
  have hT := h.TempDir w
  rcases hT0 : t.TempDir w with ⟨err | tmpDir, w1⟩
  · rw [hT0] at hT
    exact ⟨[], by simpa using hT, rfl⟩
  · rw [hT0] at hT
    simp only
    obtain ⟨pre, hpre, hfil⟩ := runSteps_serviceFetches (runSeqStep t) fetched
      (fun s => serviceFetches (seqStepFetches s))
      (fun s w => ⟨seqStepFetches s, runSeqStep_fetched t fetched h s w, rfl⟩)
      [SeqStep.Fetch (t.Join [tmpDir, "network_service.mojo.zip".toList])
          (mojoNetworkServiceUrl m.platform m.spec.networkServiceVersion),
        SeqStep.Unzip (t.Join [tmpDir, "network_service.mojo.zip".toList]) tmpDir,
        SeqStep.MkdirAll (t.Dir outDir),
        SeqStep.Rename (t.Join [tmpDir, "network_service.mojo".toList])
          (t.Join [outDir, "network_service.mojo".toList])] w1
    refine ⟨pre, ?_, ?_⟩
    · rw [h.RemoveAll, hpre, hT]
    · have hpfx := flatMap_isPrefix (fun s => serviceFetches (seqStepFetches s)) _ _
        ( runSteps_executed_prefix (runSeqStep t)
          [SeqStep.Fetch (t.Join [tmpDir, "network_service.mojo.zip".toList])
              (mojoNetworkServiceUrl m.platform m.spec.networkServiceVersion),
            SeqStep.Unzip (t.Join [tmpDir, "network_service.mojo.zip".toList]) tmpDir,
            SeqStep.MkdirAll (t.Dir outDir),
            SeqStep.Rename (t.Join [tmpDir, "network_service.mojo".toList])
              (t.Join [outDir, "network_service.mojo".toList])] w1)
      rw [← hfil] at hpfx
      have hnil : ([SeqStep.Fetch (t.Join [tmpDir, "network_service.mojo.zip".toList])
              (mojoNetworkServiceUrl m.platform m.spec.networkServiceVersion),
            SeqStep.Unzip (t.Join [tmpDir, "network_service.mojo.zip".toList]) tmpDir,
            SeqStep.MkdirAll (t.Dir outDir),
            SeqStep.Rename (t.Join [tmpDir, "network_service.mojo".toList])
              (t.Join [outDir, "network_service.mojo".toList])].flatMap
            (fun s => serviceFetches (seqStepFetches s))) = [] := by
        simp only [List.flatMap_cons, List.flatMap_nil, seqStepFetches,
          serviceFetches_networkService, List.append_nil]
        rfl
      rw [hnil] at hpfx
      exact List.prefix_nil.mp hpfx

theorem runShellStep_fetched {ε σ : Type} (t : MojoTools ε σ) (m : Manager)
    (fetched : σ → List (GoString × GoString)) (h : RecordsFetches t fetched) (s : ShellStep)
    (w : σ) :
    ∃ l, fetched (runShellStep t m s w).2 = fetched w ++ l ∧
      serviceFetches l = shellStepServiceFetches s := by
  cases s with
  | step s => exact ⟨seqStepFetches s, runSeqStep_fetched t fetched h s w, rfl⟩
  | installMojoNetworkService outDir =>
    exact installMojoNetworkService_fetched t m fetched h outDir w

theorem mojoShellSteps_serviceFetches (join : List GoString → GoString) (m : Manager)
    (tmpDir outDir : GoString) :
    (mojoShellSteps join m tmpDir outDir).flatMap shellStepServiceFetches = [] := by
  unfold mojoShellSteps
  by_cases hp : m.platform = "android-arm".toList
  · simp only [hp, if_true, List.foldl_cons, List.foldl_nil, List.flatMap_append,
      List.flatMap_cons, List.flatMap_nil, shellStepServiceFetches, seqStepFetches,
      serviceFetches_shell, List.append_nil]
    rfl
  · simp only [hp, if_false, List.foldl_cons, List.foldl_nil, List.flatMap_append,
      List.flatMap_cons, List.flatMap_nil, shellStepServiceFetches, seqStepFetches,
      serviceFetches_shell, List.append_nil]
    rfl

theorem serviceSteps_serviceFetches (join : List GoString → GoString) (m : Manager)
    (outDir : GoString) (names : List GoString) :
    (names.map (fun n => ShellStep.step (SeqStep.Fetch (join [outDir, n])
        (mojoServiceUrl m.platform n m.buildVersion)))).flatMap shellStepServiceFetches
      = names.map (serviceFetch join m outDir) := by
  induction names with
  | nil => rfl
  | cons n rest ih =>
    simp only [List.map_cons, List.flatMap_cons, ih, shellStepServiceFetches, seqStepFetches,
      serviceFetches_service, serviceFetch, List.singleton_append]

theorem shellAndServicesSteps_serviceFetches (join : List GoString → GoString) (m : Manager)
    (tmpDir outDir : GoString) :
    (shellAndServicesSteps join m tmpDir outDir).flatMap shellStepServiceFetches
      = (installedServiceNames m).map (serviceFetch join m outDir) := by
  rw [shellAndServicesSteps_eq, List.flatMap_append, mojoShellSteps_serviceFetches,
    serviceSteps_serviceFetches, List.nil_append]

theorem installMojoShellAndServices_tempDir_error {ε σ : Type} (t : MojoTools ε σ) (m : Manager)
    (outDir : GoString) (w w1 : σ) (err : ε) (hT : t.TempDir w = (Except.error err, w1)) :
    installMojoShellAndServices t m outDir w = (some err, w1) := by
  unfold installMojoShellAndServices
  rw [hT]

theorem installMojoShellAndServices_tempDir_ok {ε σ : Type} (t : MojoTools ε σ) (m : Manager)
    (outDir tmpDir : GoString) (w w1 : σ) (hT : t.TempDir w = (Except.ok tmpDir, w1)) :
    installMojoShellAndServices t m outDir w
      = ((t.AtomicAction
            (fun w => ((installMojoShellAndServicesFn t m tmpDir outDir w).err,
              (installMojoShellAndServicesFn t m tmpDir outDir w).world))
            outDir "install mojo_shell" w1).1,
          (t.RemoveAll tmpDir
            (t.AtomicAction
              (fun w => ((installMojoShellAndServicesFn t m tmpDir outDir w).err,
                (installMojoShellAndServicesFn t m tmpDir outDir w).world))
              outDir "install mojo_shell" w1).2).2) := by
  unfold installMojoShellAndServices
  rw [hT]

theorem length_filter_eq_of_nodup {α : Type} [DecidableEq α] (l : List α) (x : α)
    (hnd : l.Nodup) (hx : x ∈ l) : (l.filter (fun q => decide (q = x))).length = 1 := by
  induction l with
  | nil => cases hx
  | cons a rest ih =>
    obtain ⟨ha, hrest⟩ := List.nodup_cons.mp hnd
    by_cases hax : a = x
    · subst hax
      have hnone : rest.filter (fun q => decide (q = a)) = [] := by
        rw [List.filter_eq_nil_iff]
        intro q hq hqa
        exact ha (by rw [← of_decide_eq_true hqa]; exact hq)
      rw [List.filter_cons_of_pos (by simp), hnone]
      rfl
    · rw [List.filter_cons_of_neg (by simp [hax])]
      rcases List.mem_cons.mp hx with hxa | hxr
      · exact absurd hxa.symm hax
      · exact ih hrest hxr

theorem once_serviceFetch (join : List GoString → GoString) (m : Manager)
    (outDir : GoString) (names : List GoString) (pre : List (GoString × GoString))
    (hpre : serviceFetches pre = names.map (serviceFetch join m outDir))
    (hnd : names.Nodup) (n : GoString) (hn : n ∈ names) :
    (pre.filter (fun q => decide (q = serviceFetch join m outDir n))).length = 1 := by
  have hsame : pre.filter (fun q => decide (q = serviceFetch join m outDir n))
      = (serviceFetches pre).filter (fun q => decide (q = serviceFetch join m outDir n)) := by
    unfold serviceFetches
    rw [List.filter_filter]
    apply List.filter_congr
    intro q hq
    by_cases hqx : q = serviceFetch join m outDir n
    · subst hqx
      have hp := HasPrefix_mojoServiceUrl m.platform n m.buildVersion
      simp only [serviceFetch, hp, decide_True, Bool.and_self]
    · simp [hqx]
  rw [hsame, hpre]
  exact length_filter_eq_of_nodup _ _
    ((List.nodup_map_iff (serviceFetch_injective join m outDir)).mpr hnd)
    (List.mem_map_of_mem _ hn)

/-- C22: in a run of `installMojoShellAndServices` whose collaborators keep a
record of the fetches made, with an atomic action that runs its function, the
service fetches that the run adds to the record are, in order, fetches
`Fetch(Join(outDir, n), mojoServiceUrl(platform, n, buildVersion))` for the
service names `n` from the first one on, up to the call at which the run fails.
When the run returns no error there is one for every service name, in the order
of the names, and, the names being distinct, each service is fetched exactly
once in the whole run.  The service names are the `serviceNames` of the spec
followed by `serviceNamesLinux` on platform `linux-x64` and by
`serviceNamesAndroid` on platform `android-arm`. -/
theorem installMojoShellAndServices_fetches {ε σ : Type} (t : MojoTools ε σ) (m : Manager)
    (outDir : GoString) (w : σ) (fetched : σ → List (GoString × GoString))
    (h : RecordsFetches t fetched) :
    (m.platform = "linux-x64".toList →
      installedServiceNames m = m.spec.serviceNames ++ m.spec.serviceNamesLinux) ∧
    (m.platform = "android-arm".toList →
      installedServiceNames m = m.spec.serviceNames ++ m.spec.serviceNamesAndroid) ∧
    ∃ pre, fetched (installMojoShellAndServices t m outDir w).2 = fetched w ++ pre ∧
      serviceFetches pre <+: (installedServiceNames m).map (serviceFetch t.Join m outDir) ∧
      ((installMojoShellAndServices t m outDir w).1 = none →
        serviceFetches pre = (installedServiceNames m).map (serviceFetch t.Join m outDir) ∧
        ((installedServiceNames m).Nodup → ∀ n ∈ installedServiceNames m,
          (pre.filter (fun q => decide (q = serviceFetch t.Join m outDir n))).length = 1)) := by
  refine ⟨?_, ?_, ?_⟩
  · intro hp
    have hne : ¬ ("linux-x64".toList = "android-arm".toList) := by decide
    unfold installedServiceNames
    simp only [hp, hne, if_false, if_true]
  · intro hp
    have hne : ¬ ("android-arm".toList = "linux-x64".toList) := by decide
    unfold installedServiceNames
    simp only [hp, hne, if_false, if_true]
  · have hT := h.TempDir w
    rcases hT0 : t.TempDir w with ⟨err | tmpDir, w1⟩
    · rw [hT0] at hT
      rw [installMojoShellAndServices_tempDir_error t m outDir w w1 err hT0]
      refine ⟨[], by simpa using hT, List.nil_prefix, ?_⟩
      intro hok
      cases hok
    · rw [hT0] at hT
      rw [installMojoShellAndServices_tempDir_ok t m outDir tmpDir w w1 hT0]
      obtain ⟨w0, hw0, hA, hnone⟩ := h.AtomicAction
        (fun w => ((installMojoShellAndServicesFn t m tmpDir outDir w).err,
          (installMojoShellAndServicesFn t m tmpDir outDir w).world))
        outDir "install mojo_shell" w1
      obtain ⟨pre, hpre, hfil⟩ := runSteps_serviceFetches (runShellStep t m) fetched
        shellStepServiceFetches (runShellStep_fetched t m fetched h)
        (shellAndServicesSteps t.Join m tmpDir outDir) w0
      have hall : serviceFetches pre
            = (runSteps (runShellStep t m) (shellAndServicesSteps t.Join m tmpDir outDir)
                w0).executed.flatMap shellStepServiceFetches := hfil
      refine ⟨pre, ?_, ?_, ?_⟩
      · simp only
        rw [h.RemoveAll, hA]
        show fetched (runSteps (runShellStep t m)
          (shellAndServicesSteps t.Join m tmpDir outDir) w0).world = _
        rw [hpre, hw0, hT]
      · rw [hall, ← shellAndServicesSteps_serviceFetches t.Join m tmpDir outDir]
        exact flatMap_isPrefix _ _ _ ( runSteps_executed_prefix _ _ _)
      · intro hok
        have hfn : (runSteps (runShellStep t m)
            (shellAndServicesSteps t.Join m tmpDir outDir) w0).err = none := hnone hok
        have hexec := runSteps_executed_all _ _ _ hfn
        have hsvc : serviceFetches pre
            = (installedServiceNames m).map (serviceFetch t.Join m outDir) := by
          rw [hall, hexec, shellAndServicesSteps_serviceFetches]
        exact ⟨hsvc, fun hnodup n hn => once_serviceFetch t.Join m outDir _ pre hsvc hnodup n hn⟩

theorem installMojoShellAndServices_fetches_witness :
    RecordsFetches (sampleMojoTools false) (fun w => w) ∧
      (installMojoShellAndServices (sampleMojoTools false) linuxManager "/out".toList []).1
        = none ∧
      (installedServiceNames linuxManager).Nodup ∧
      serviceFetches
          (installMojoShellAndServices (sampleMojoTools false) linuxManager "/out".toList []).2
        = ["authenticating_url_loader_interceptor.mojo".toList,
            "dart_content_handler.mojo".toList, "debugger.mojo".toList, "kiosk_wm.mojo".toList,
            "tracing.mojo".toList, "authentication.mojo".toList].map (fun n =>
            ("/out/".toList ++ n,
              "https://storage.googleapis.com/mojo/services/linux-x64/".toList
                ++ "e2cd09460972dab4d1766153e108457fe5bbaed5/".toList ++ n)) ∧
      (installMojoShellAndServices (sampleMojoTools true) linuxManager "/out".toList []).1
        = some 1 ∧
      (serviceFetches
        (installMojoShellAndServices (sampleMojoTools true) linuxManager "/out".toList
          []).2).length = 4 := by
  have hrec : RecordsFetches (sampleMojoTools false) (fun w => w) :=
    ⟨fun _ _ _ => rfl, fun _ => rfl, fun _ _ => rfl, fun _ _ => rfl, fun _ _ _ => rfl,
      fun _ _ _ => rfl, fun fn _ _ w => ⟨w, rfl, rfl, fun h => h⟩⟩
  obtain ⟨pre, hpre, -, hok⟩ := (installMojoShellAndServices_fetches (sampleMojoTools false)
    linuxManager "/out".toList [] (fun w => w) hrec).2.2
  have hnone : (installMojoShellAndServices (sampleMojoTools false) linuxManager
      "/out".toList []).1 = none := by decide
  refine ⟨hrec, hnone, by decide, ?_, by decide, by decide⟩
  simp only [List.nil_append] at hpre
  rw [hpre, (hok hnone).1]
  decide

end GoDevtools
